import Mathlib

/-!
Shallow embedding of the OOR promo-code redemption server (server.js):
the redemption engine (claimPromoCodeAtomic), the resource selector
(selectCredentialForSlot), the TOTP generator (generateTotp) and the
user-facing routes (/promo/claim, /user/login, /account/refresh,
/account/get-otp, /account/get-code).

Modelling conventions:
  - The Firebase store is modelled as association lists keyed by strings;
    point reads are List.lookup, point writes are setAssoc / updateAssoc.
  - JavaScript timestamps are integers (milliseconds since the epoch, one
    fixed local timezone).  Date construction from (year, month, day) and
    Date decomposition use the standard civil-calendar conversion, so
    "new Date(y, m - 1, d + 1)" becomes dayMs y m (d + 1).
  - Numeric record fields that the server reads through parseInt are
    modelled as integers (a well-formed store); string fields that the
    server tests for truthiness are Option String, where empty strings are
    collapsed by presentStr exactly where the source uses "|| null".
  - promo.expires_at is modelled as Option Int: none stands for an absent
    or unparseable value (both skip the expiry check in the source).
-/

/-- Character-list splitter behind splitOnCh. -/
def splitChsAux (sep : Char) : List Char → List Char → List String
  | [], acc => [String.mk acc.reverse]
  | c :: rest, acc =>
    if c == sep then String.mk acc.reverse :: splitChsAux sep rest []
    else splitChsAux sep rest (c :: acc)

/-- JavaScript s.split(sep) for a one-character separator (keeps empty
pieces; the empty string yields [""]). -/
def splitOnCh (sep : Char) (s : String) : List String := splitChsAux sep s.toList []

/-- Lower-casing (toLowerCase on the ASCII range). -/
def lowerStr (s : String) : String := String.mk (s.toList.map Char.toLower)

/-- Upper-casing (toUpperCase on the ASCII range). -/
def upperStr (s : String) : String := String.mk (s.toList.map Char.toUpper)

/-- JavaScript s.trim(): strip leading and trailing whitespace. -/
def trimStr (s : String) : String :=
  String.mk (((s.toList.dropWhile Char.isWhitespace).reverse.dropWhile Char.isWhitespace).reverse)

/-- Character-list prefix test. -/
def chPref : List Char → List Char → Bool
  | [], _ => true
  | _ :: _, [] => false
  | a :: as, b :: bs => a == b && chPref as bs

/-- JavaScript s.startsWith(p). -/
def startsWithStr (s p : String) : Bool := chPref p.toList s.toList

/-- JavaScript parseInt(s, 10): skip whitespace, optional sign, then take
the leading run of decimal digits; none when no digit is found (NaN). -/
def digitsVal : List Char → Nat → Nat
  | [], acc => acc
  | c :: rest, acc => if c.isDigit then digitsVal rest (acc * 10 + (c.toNat - 48)) else acc

/-- Leading-digit-run value of a character list, none when the first
character is not a digit. -/
def parseDigits : List Char → Option Nat
  | [] => none
  | c :: rest => if c.isDigit then some (digitsVal (c :: rest) 0) else none

/-- Embedding of JavaScript parseInt(s, 10). -/
def parseIntJs (s : String) : Option Int :=
  match (trimStr s).toList with
  | '-' :: rest => (parseDigits rest).map (fun n => -(n : Int))
  | '+' :: rest => (parseDigits rest).map (fun n => (n : Int))
  | l => (parseDigits l).map (fun n => (n : Int))

/-- JavaScript truthiness for optional strings: "x || null" collapses the
empty string to null. -/
def presentStr : Option String → Option String
  | none => none
  | some s => if s = "" then none else some s

/-- Write-by-key on an association list (Firebase set: replace or create). -/
def setAssoc {α : Type} (l : List (String × α)) (k : String) (v : α) : List (String × α) :=
  match l with
  | [] => [(k, v)]
  | (k2, v2) :: rest => if k2 == k then (k, v) :: rest else (k2, v2) :: setAssoc rest k v

/-- Patch-by-key on an association list (Firebase update of an existing node). -/
def updateAssoc {α : Type} (l : List (String × α)) (k : String) (f : α → α) : List (String × α) :=
  match l with
  | [] => []
  | (k2, v2) :: rest => if k2 == k then (k2, f v2) :: rest else (k2, v2) :: updateAssoc rest k f

/-- Days from the civil epoch 1970-01-01 for a (year, month, day) triple,
linear in the day argument, so that the JavaScript normalisation of
"new Date(y, m - 1, d + 1)" is daysFromCivil y m (d + 1).  Standard civil
calendar conversion; all divisions act on non-negative operands for the
years that occur in the store. -/
def daysFromCivil (y m d : Int) : Int :=
  let yy := if m ≤ 2 then y - 1 else y
  let era := (if 0 ≤ yy then yy else yy - 399) / 400
  let yoe := yy - era * 400
  let mp := (m + 9) % 12
  let doy := (153 * mp + 2) / 5 + d - 1
  let doe := yoe * 365 + yoe / 4 - yoe / 100 + doy
  era * 146097 + doe - 719468

/-- Inverse of daysFromCivil: the (year, month, day) of a day number. -/
def civilFromDays (z0 : Int) : Int × Int × Int :=
  let z := z0 + 719468
  let era := (if 0 ≤ z then z else z - 146096) / 146097
  let doe := z - era * 146097
  let yoe := (doe - doe / 1460 + doe / 36524 - doe / 146096) / 365
  let y := yoe + era * 400
  let doy := doe - (365 * yoe + yoe / 4 - yoe / 100)
  let mp := (5 * doy + 2) / 153
  let d := doy - (153 * mp + 2) / 5 + 1
  let m := if mp < 10 then mp + 3 else mp - 9
  ((if m ≤ 2 then y + 1 else y), m, d)

/-- Milliseconds in a day. -/
def msPerDay : Int := 86400000

/-- Local-midnight instant of a civil date, the embedding of
"new Date(y, m - 1, d)". -/
def dayMs (y m d : Int) : Int := daysFromCivil y m d * msPerDay

/-- Zero left padding of String(n) to width 2 (padStart(2, "0")). -/
def pad2 (n : Int) : String :=
  let s := toString n
  if s.length < 2 then "0" ++ s else s

/-- Embedding of formatDateTime: local "Y-M-D HH:MM:SS" rendering of an
instant. -/
def formatDateTime (t : Int) : String :=
  let days := t / msPerDay
  let rem := t % msPerDay
  let ymd := civilFromDays days
  toString ymd.1 ++ "-" ++ pad2 ymd.2.1 ++ "-" ++ pad2 ymd.2.2 ++ " " ++
    pad2 (rem / 3600000) ++ ":" ++ pad2 (rem / 60000 % 60) ++ ":" ++ pad2 (rem / 1000 % 60)

/-- Embedding of parseEndTime (new Date(endStr) on a stored end_time),
restricted to the canonical "Y-M-D HH:MM:SS" local format that
formatDateTime emits; every other input is treated as unparseable (none),
like an invalid Date. -/
def parseEndTime (s : String) : Option Int :=
  if s = "" then none
  else
    match splitOnCh ' ' s with
    | [dstr, tstr] =>
      match (splitOnCh '-' dstr).map parseIntJs, (splitOnCh ':' tstr).map parseIntJs with
      | [some y, some mo, some d], [some hh, some mi, some ss] =>
        some (dayMs y mo d + hh * 3600000 + mi * 60000 + ss * 1000)
      | _, _ => none
    | _ => none

/-- End-time guard shared by /user/login, /account/refresh,
/account/get-otp and /account/get-code: parsed end time strictly in the
past. -/
def endTimePassed (endStr : String) (now : Int) : Bool :=
  match parseEndTime endStr with
  | some e => decide (e < now)
  | none => false

/-- One entry of a promo code's append-only used_by log. -/
structure UseEntry where
  user_id : String
  used_at : String
deriving DecidableEq

/-- A promo_codes/<code> record, restricted to the fields the redemption
engine reads or writes.  used_count and max_uses are the parseInt views of
a well-formed store; expires_at is the parsed expiry instant (none when
absent or unparseable, both of which skip the expiry check). -/
structure Promo where
  slot_id : Option String
  revoked : Bool
  expires_at : Option Int
  used_count : Int
  max_uses : Int
  last_used_by : Option String
  last_used_at : Option String
  used_by : List UseEntry
deriving DecidableEq

/-- Expiry check of claimPromoCodeAtomic: an expiry is set, parseable and
strictly in the past. -/
def promoExpired (p : Promo) (now : Int) : Bool :=
  match p.expires_at with
  | some e => decide (e < now)
  | none => false

/-- All pre-write checks of one claim attempt pass: not revoked, not
expired, used_count strictly below max_uses. -/
def claimEligible (p : Promo) (now : Int) : Bool :=
  !p.revoked && !promoExpired p now && decide (p.used_count < p.max_uses)

/-- The patch claimPromoCodeAtomic writes: used_count, last_used_by,
last_used_at and used_by are overwritten on the current node cur, all of
them computed from the earlier read readv. -/
def promoPatch (cur readv : Promo) (uid t : String) : Promo :=
  { cur with
    used_count := readv.used_count + 1
    last_used_by := some uid
    last_used_at := some t
    used_by := readv.used_by ++ [⟨uid, t⟩] }

/-- Outcome of claimPromoCodeAtomic, in the source's failure vocabulary
(CODE_NOT_FOUND, CODE_REVOKED, CODE_EXPIRED, CODE_ALREADY_USED_UP,
RACE_FAILED); success carries the re-read record the source returns. -/
inductive ClaimResult where
  | notFound
  | revoked
  | expired
  | alreadyUsedUp
  | raceFailed
  | success (after : Promo)
deriving DecidableEq

/-- Environment of one claim attempt: pre is interference by other store
clients between this attempt's read and its write, writeOk tells whether
the update call succeeds (a throwing update is retried), mid is
interference between the write attempt and the verification re-read. -/
structure AttemptSched where
  pre : Promo → Promo
  writeOk : Bool
  mid : Promo → Promo

/-- The quiet schedule: no interference, every write succeeds. -/
def idSched : Nat → AttemptSched := fun _ => ⟨id, true, id⟩

/-- The retry loop of claimPromoCodeAtomic.  i is the attempt index, the
Nat argument is the remaining fuel (maxRetries - i), the store argument is
the current promo_codes/<code> node.  Returns the result, the final node,
and the list of backoff sleeps taken (100 ms after a failed write, 80 ms
after a verification mismatch), in order. -/
def claimGo (sched : Nat → AttemptSched) (uid : String) (now : Nat → Int) (tstr : Nat → String) :
    Nat → Nat → Option Promo → ClaimResult × Option Promo × List Nat
  | _, 0, store => (.raceFailed, store, [])
  | i, fuel + 1, store =>
    match store with
    | none => (.notFound, none, [])
    | some promo =>
      if promo.revoked then (.revoked, some promo, [])
      else if promoExpired promo (now i) then (.expired, some promo, [])
      else if promo.max_uses ≤ promo.used_count then (.alreadyUsedUp, some promo, [])
      else
        if (sched i).writeOk then
          let s3 := (sched i).mid (promoPatch ((sched i).pre promo) promo uid (tstr i))
          if s3.used_count = promo.used_count + 1 then (.success s3, some s3, [])
          else
            let r := claimGo sched uid now tstr (i + 1) fuel (some s3)
            (r.1, r.2.1, 80 :: r.2.2)
        else
          let s3 := (sched i).mid ((sched i).pre promo)
          let r := claimGo sched uid now tstr (i + 1) fuel (some s3)
          (r.1, r.2.1, 100 :: r.2.2)

/-- Embedding of claimPromoCodeAtomic(code, userId, maxRetries = 4),
acting on the promo_codes/<code> node under the given schedule. -/
def claimPromoCodeAtomic (sched : Nat → AttemptSched) (uid : String) (now : Nat → Int)
    (tstr : Nat → String) (maxRetries : Nat) (store : Option Promo) :
    ClaimResult × Option Promo × List Nat :=
  claimGo sched uid now tstr 0 maxRetries store

/-- Histories of the promo_codes/<code> node under an arbitrary
interleaving of Claim operations only: the head is the current state, the
last element is the initial state.  A step writes the claim patch computed
from a (possibly stale) earlier state r that passed all pre-write checks
at that claimant's read time. -/
inductive ClaimHist : Promo → List Promo → Prop where
  | init (p : Promo) : ClaimHist p [p]
  | step {p0 cur r : Promo} {l : List Promo} (uid t : String) (now : Int) :
      ClaimHist p0 (cur :: l) → r ∈ cur :: l → claimEligible r now = true →
      ClaimHist p0 (promoPatch cur r uid t :: cur :: l)

/-- Raw ownership field of a credential node (belongs_to_slot /
belongs_to_platform): absent, a comma-separated string, or an array. -/
inductive OwnsVal where
  | absent
  | str (s : String)
  | arr (l : List String)
deriving DecidableEq

/-- Embedding of normalizeOwns: arrays pass through, strings are split on
commas, trimmed and emptied of blanks, falsy values give []. -/
def normalizeOwns : OwnsVal → List String
  | .absent => []
  | .arr l => l
  | .str s => if s = "" then [] else ((splitOnCh ',' s).map trimStr).filter (fun v => v ≠ "")

/-- A top-level cred* node, restricted to the fields the server reads.
locked, usage_count and max_usage are the parseInt views of a well-formed
store. -/
structure Cred where
  belongs_to_slot : OwnsVal
  belongs_to_platform : OwnsVal
  locked : Int
  usage_count : Int
  max_usage : Int
  expiry_date : Option String
  email : Option String
  password : Option String
  secret : Option String
  invite_link : Option String
deriving DecidableEq

/-- Duration specification of a slot: a JSON number or a string. -/
inductive DurVal where
  | num (n : Int)
  | str (s : String)
deriving DecidableEq

/-- A settings/slots/<slotId> record. -/
structure Slot where
  name : Option String
  platform : Option String
  enabled : Bool
  duration_hours : Option DurVal
deriving DecidableEq

/-- Character-list substring test. -/
def chSub (p : List Char) : List Char → Bool
  | [] => chPref p []
  | c :: rest => chPref p (c :: rest) || chSub p rest

/-- Case-insensitive substring test for "day", the embedding of
/day/i.test(rawDuration). -/
def containsDayCI (s : String) : Bool := chSub "day".toList (lowerStr s).toList

/-- Lease duration in hours from a slot's duration specification: numbers
are taken as hours, strings containing "day" (case-insensitive) mean 24,
other strings are parsed with parseInt, and 6 is the default when nothing
parses. -/
def durationHoursOf (raw : Option DurVal) : Int :=
  match raw with
  | some (.num n) => n
  | some (.str s) =>
    if containsDayCI s then 24
    else
      match parseIntJs s with
      | some n => n
      | none => 6
  | none => 6

/-- The year-month-day triple parseInt extracts from an expiry_date string
split on "-"; none when any of the first three parts has no leading
integer (the source then builds an invalid Date, which never compares as
expired). -/
def ymdOf (s : String) : Option (Int × Int × Int) :=
  match (splitOnCh '-' s).map parseIntJs with
  | some y :: some m :: some d :: _ => some (y, m, d)
  | _ => none

/-- Expiry test of selectCredentialForSlot: the end-of-day instant
new Date(y, m - 1, d + 1) is strictly before now. -/
def credExpired (ed : Option String) (now : Int) : Bool :=
  match ed with
  | none => false
  | some s =>
    if s = "" then false
    else
      match ymdOf s with
      | some (y, m, d) => decide (dayMs y m (d + 1) < now)
      | none => false

/-- A surviving candidate of the selector's scan, with its applicability
flags. -/
structure Candidate where
  key : String
  node : Cred
  appliesSlot : Bool
  appliesPlat : Bool
  appliesAll : Bool
deriving DecidableEq

/-- Lower-cased ownership-by-slot set of a credential. -/
def ownsSlotsOf (c : Cred) : List String := (normalizeOwns c.belongs_to_slot).map lowerStr

/-- Lower-cased ownership-by-platform set of a credential. -/
def ownsPlatsOf (c : Cred) : List String := (normalizeOwns c.belongs_to_platform).map lowerStr

/-- One iteration of the selector's scan over a root entry: none when the
key is not a cred* key, when no applicability predicate holds, or when the
candidate is locked, over its usage cap, or past its expiry date. -/
def credCandidate (slotId slotPlatform : String) (now : Int) (k : String) (node : Cred) :
    Option Candidate :=
  if !startsWithStr k "cred" then none
  else
    let ownsSlots := ownsSlotsOf node
    let ownsPlats := ownsPlatsOf node
    let appliesSlot := ownsSlots.contains (lowerStr slotId)
    let appliesPlat := slotPlatform != "" && ownsPlats.contains slotPlatform
    let appliesAll := ownsSlots.contains "all" || ownsPlats.contains "all"
    if !appliesSlot && !appliesPlat && !appliesAll then none
    else if node.locked == 1 then none
    else if node.max_usage != 0 && decide (node.max_usage ≤ node.usage_count) then none
    else if credExpired node.expiry_date now then none
    else some ⟨k, node, appliesSlot, appliesPlat, appliesAll⟩

/-- The selector's candidate list over the whole root, in store iteration
order. -/
def candidatesFor (root : List (String × Cred)) (slotId slotPlatform : String) (now : Int) :
    List Candidate :=
  root.filterMap (fun kv => credCandidate slotId slotPlatform now kv.1 kv.2)

/-- Embedding of selectCredentialForSlot(slotId, slotInfo): scan the root
for applicable, unlocked, uncapped, unexpired cred* nodes, then pick the
first candidate by strict priority slot > platform > all. -/
def selectCredentialForSlot (root : List (String × Cred)) (slotId : String) (slotInfo : Slot)
    (now : Int) : Option (String × Cred) :=
  let slotPlatform := lowerStr ((presentStr slotInfo.platform).getD "")
  let candidates := candidatesFor root slotId slotPlatform now
  match candidates.find? (fun c => c.appliesSlot) with
  | some c => some (c.key, c.node)
  | none =>
    match candidates.find? (fun c => c.appliesPlat) with
    | some c => some (c.key, c.node)
    | none =>
      match candidates.find? (fun c => c.appliesAll) with
      | some c => some (c.key, c.node)
      | none => none

/-- The RFC 4648 base-32 alphabet as a character list. -/
def b32Alphabet : List Char := "ABCDEFGHIJKLMNOPQRSTUVWXYZ234567".toList

/-- Regroup a list of 5-bit values into 8-bit bytes, dropping trailing
bits that do not fill a byte; acc is the bit buffer holding nbits (< 8)
pending bits.  This is the bit-string regrouping of base32ToBuffer. -/
def b32Regroup : List Nat → Nat → Nat → List Nat
  | [], _, _ => []
  | v :: rest, acc, nbits =>
    let acc2 := acc * 32 + v
    let nb := nbits + 5
    if 8 ≤ nb then ((acc2 >>> (nb - 8)) &&& 255) :: b32Regroup rest (acc2 % 2 ^ (nb - 8)) (nb - 8)
    else b32Regroup rest acc2 nb

/-- Embedding of base32ToBuffer: strip whitespace and padding, upper-case,
map alphabet characters to 5-bit values (skipping foreign characters), and
regroup the bit stream into bytes. -/
def base32ToBuffer (secret : String) : List Nat :=
  let clean := (secret.toList.filter (fun c => !(c.isWhitespace || c == '='))).map Char.toUpper
  let vals := clean.filterMap (fun c => List.indexOf? c b32Alphabet)
  b32Regroup vals 0 0

/-- Rotate a 32-bit word left by n bits. -/
def rotl32 (n x : Nat) : Nat := ((x <<< n) ||| (x >>> (32 - n))) % 4294967296

/-- Big-endian 8-byte encoding of a counter (writeBigUInt64BE). -/
def be8 (n : Nat) : List Nat :=
  [(n >>> 56) &&& 255, (n >>> 48) &&& 255, (n >>> 40) &&& 255, (n >>> 32) &&& 255,
   (n >>> 24) &&& 255, (n >>> 16) &&& 255, (n >>> 8) &&& 255, n &&& 255]

/-- SHA-1 working state. -/
structure Sha1State where
  a : Nat
  b : Nat
  c : Nat
  d : Nat
  e : Nat
deriving DecidableEq

/-- Big-endian 32-bit word at index i of a byte block. -/
def word32At (block : List Nat) (i : Nat) : Nat :=
  (block.getD (4 * i) 0 <<< 24) ||| (block.getD (4 * i + 1) 0 <<< 16) |||
    (block.getD (4 * i + 2) 0 <<< 8) ||| block.getD (4 * i + 3) 0

/-- Message-schedule extension: acc holds the words produced so far in
reverse order (head = most recent); each step prepends
rotl1(w[i-3] xor w[i-8] xor w[i-14] xor w[i-16]). -/
def sha1Extend : Nat → List Nat → List Nat
  | 0, acc => acc
  | fuel + 1, acc =>
    sha1Extend fuel
      (rotl32 1 (acc.getD 2 0 ^^^ acc.getD 7 0 ^^^ acc.getD 13 0 ^^^ acc.getD 15 0) :: acc)

/-- The 80 SHA-1 rounds over the word schedule. -/
def sha1Rounds : List Nat → Nat → Sha1State → Sha1State
  | [], _, st => st
  | w :: ws, i, st =>
    let f :=
      if i < 20 then (st.b &&& st.c) ||| ((st.b ^^^ 4294967295) &&& st.d)
      else if i < 40 then st.b ^^^ st.c ^^^ st.d
      else if i < 60 then (st.b &&& st.c) ||| (st.b &&& st.d) ||| (st.c &&& st.d)
      else st.b ^^^ st.c ^^^ st.d
    let k :=
      if i < 20 then 1518500249
      else if i < 40 then 1859775393
      else if i < 60 then 2400959708
      else 3395469782
    let temp := (rotl32 5 st.a + f + st.e + k + w) % 4294967296
    sha1Rounds ws (i + 1) ⟨temp, st.a, rotl32 30 st.b, st.c, st.d⟩

/-- One SHA-1 compression over a 64-byte block. -/
def sha1Block (st : Sha1State) (block : List Nat) : Sha1State :=
  let w16 := (List.range 16).map (word32At block)
  let ws := (sha1Extend 64 w16.reverse).reverse
  let r := sha1Rounds ws 0 st
  ⟨(st.a + r.a) % 4294967296, (st.b + r.b) % 4294967296, (st.c + r.c) % 4294967296,
   (st.d + r.d) % 4294967296, (st.e + r.e) % 4294967296⟩

/-- Split a byte list into 64-byte chunks (fuel-driven). -/
def chunksGo : Nat → List Nat → List (List Nat)
  | 0, _ => []
  | _, [] => []
  | fuel + 1, l => l.take 64 :: chunksGo fuel (l.drop 64)

/-- All 64-byte chunks of a byte list. -/
def chunks64 (l : List Nat) : List (List Nat) := chunksGo l.length l

/-- Big-endian bytes of a list of 32-bit words. -/
def wordsToBytes (ws : List Nat) : List Nat :=
  (ws.map (fun w => [(w >>> 24) &&& 255, (w >>> 16) &&& 255, (w >>> 8) &&& 255, w &&& 255])).flatten

/-- SHA-1 of a byte list (20-byte digest). -/
def sha1 (msg : List Nat) : List Nat :=
  let len := msg.length
  let z := (64 + 55 - len % 64) % 64
  let padded := msg ++ 128 :: (List.replicate z 0 ++ be8 (8 * len))
  let st := (chunks64 padded).foldl sha1Block
    ⟨1732584193, 4023233417, 2562383102, 271733878, 3285377520⟩
  wordsToBytes [st.a, st.b, st.c, st.d, st.e]

/-- HMAC-SHA1 of a message under a key (crypto.createHmac("sha1", key)). -/
def hmacSha1 (key msg : List Nat) : List Nat :=
  let k0 := if 64 < key.length then sha1 key else key
  let k := k0 ++ List.replicate (64 - k0.length) 0
  sha1 ((k.map (fun b => b ^^^ 92)) ++ sha1 ((k.map (fun b => b ^^^ 54)) ++ msg))

/-- Zero left padding of a string to a given width (padStart(digits, "0")). -/
def padLeftZeros (s : String) (n : Nat) : String :=
  if s.length < n then String.mk (List.replicate (n - s.length) '0') ++ s else s

/-- The dynamic-truncation value of a 20-byte HMAC digest: the low 4 bits
of the last byte give an offset, and the 4 bytes from there, with the top
bit of the first masked off, form a 31-bit big-endian integer. -/
def dynamicTrunc (hmac : List Nat) : Nat :=
  let off := hmac.getD (hmac.length - 1) 0 &&& 15
  ((hmac.getD off 0 &&& 127) <<< 24) ||| ((hmac.getD (off + 1) 0 &&& 255) <<< 16) |||
    ((hmac.getD (off + 2) 0 &&& 255) <<< 8) ||| (hmac.getD (off + 3) 0 &&& 255)

/-- Embedding of generateTotp(secret, step, digits) at the instant nowMs
(Date.now()): returns the zero-padded code and the remaining validity of
the current window in seconds. -/
def generateTotp (secret : String) (step digits : Nat) (nowMs : Nat) : String × Nat :=
  let key := base32ToBuffer secret
  let time := nowMs / 1000 / step
  let hmac := hmacSha1 key (be8 time)
  let codeInt := dynamicTrunc hmac % 10 ^ digits
  (padLeftZeros (toString codeInt) digits, step - nowMs / 1000 % step)

/-- The settings/ui_flags fields the approve-flow label resolution reads. -/
structure UiFlags where
  approve_flow_label_mode : Option String
  use_platform_in_approve_flow : Bool
deriving DecidableEq

/-- Embedding of resolveLabelMode(uiFlags, "approve_flow"): an explicit
"platform" or "name" value (trimmed, case-insensitive) wins, else the
legacy boolean flag maps true to "platform" and false to "name". -/
def resolveLabelMode (u : UiFlags) : String :=
  let mode := lowerStr (trimStr ((u.approve_flow_label_mode).getD ""))
  if mode = "platform" || mode = "name" then mode
  else if u.use_platform_in_approve_flow then "platform" else "name"

/-- A settings/platform_actions entry (capability flags per platform). -/
structure ActionsConf where
  refresh_enabled : Bool
  otp_enabled : Bool
  code_enabled : Bool
  invite_enabled : Bool
deriving DecidableEq

/-- A transactions/<code> record (the lease), with the fields the server
reads or writes. -/
structure Txn where
  platform : Option String
  slot_id : Option String
  slot_name : String
  label_mode : String
  headline : String
  start_time : String
  end_time : String
  approved_at : String
  assign_to : Option String
  user_id : String
  last_email : Option String
  last_password : Option String
  hidden : Bool
  invite_link_short : Option String
  invite_link_long : Option String
  otp_delivered : Bool
  code_delivered : Bool
deriving DecidableEq

/-- The store: promo codes, transactions, slots, ui flags, the top-level
cred* nodes, platform action flags (keyed by platform name, with the
fallback under "default"), and the per-platform runtime/code_windows
window_until values. -/
structure Db where
  promo_codes : List (String × Promo)
  transactions : List (String × Txn)
  slots : List (String × Slot)
  ui_flags : UiFlags
  root : List (String × Cred)
  platform_actions : List (String × ActionsConf)
  code_windows : List (String × Int)
deriving DecidableEq

/-- Result of the /promo/claim route, reduced to its decision content:
the failure reason, or the transaction record the success response is
built from, with the assignment outcome flag. -/
inductive PromoClaimRes where
  | badRequest
  | failed (reason : ClaimResult)
  | noSlotOnPromo
  | slotMissing
  | claimed (assigned : Bool) (txn : Txn)
deriving DecidableEq

/-- Success tail of /promo/claim, after claimPromoCodeAtomic confirmed
the claim on db1: resolve the slot, build the transaction record,
unconditionally set transactions/<codeText>, then try to bind a
credential (the selector reads the root, which the transaction write did
not touch) and best-effort increment its usage_count. -/
def promoClaimSuccess (db1 : Db) (codeText userId : String) (promo : Promo) (now : Int)
    (nowIsoStr : String) : PromoClaimRes × Db :=
  match presentStr promo.slot_id with
  | none => (.noSlotOnPromo, db1)
  | some slotId =>
    match List.lookup slotId db1.slots with
    | none => (.slotMissing, db1)
    | some slot =>
      let labelMode := resolveLabelMode db1.ui_flags
      let durationHours := durationHoursOf slot.duration_hours
      let endTime := now + durationHours * 3600000
      let platform := presentStr slot.platform
      let slotName := (presentStr slot.name).getD slotId
      let headline :=
        if labelMode = "platform" && platform.isSome then (platform.getD "") ++ " Account"
        else slotName ++ " Account"
      let txn : Txn :=
        { platform := platform
          slot_id := some slotId
          slot_name := slotName
          label_mode := labelMode
          headline := headline
          start_time := formatDateTime now
          end_time := formatDateTime endTime
          approved_at := nowIsoStr
          assign_to := none
          user_id := userId
          last_email := none
          last_password := none
          hidden := false
          invite_link_short := none
          invite_link_long := none
          otp_delivered := false
          code_delivered := false }
      let db2 := { db1 with transactions := setAssoc db1.transactions codeText txn }
      match selectCredentialForSlot db1.root slotId slot now with
      | none => (.claimed false txn, db2)
      | some kc =>
        let db3 :=
          { db2 with
            transactions := updateAssoc db2.transactions codeText (fun t =>
              { t with
                assign_to := some kc.1
                last_email := presentStr kc.2.email
                last_password := presentStr kc.2.password }) }
        let newRoot :=
          if kc.2.max_usage = 0 || decide (kc.2.usage_count < kc.2.max_usage) then
            updateAssoc db3.root kc.1 (fun c => { c with usage_count := kc.2.usage_count + 1 })
          else db3.root
        let db4 := { db3 with root := newRoot }
        let finalTxn := (List.lookup codeText db4.transactions).getD txn
        (.claimed true finalTxn, db4)

/-- Body of /promo/claim after input validation, acting on the normalised
code.  now is the claim instant, nowIsoStr the ISO timestamp string used
for log fields. -/
def promoClaimNorm (db : Db) (codeText userId : String) (now : Int) (nowIsoStr : String) :
    PromoClaimRes × Db :=
  let r := claimPromoCodeAtomic idSched userId (fun _ => now) (fun _ => nowIsoStr) 4
    (List.lookup codeText db.promo_codes)
  let db1 :=
    match r.2.1 with
    | some p => { db with promo_codes := setAssoc db.promo_codes codeText p }
    | none => db
  match r.1 with
  | .success promo => promoClaimSuccess db1 codeText userId promo now nowIsoStr
  | _ => (.failed r.1, db1)

/-- Embedding of the /promo/claim route: validate inputs, normalise the
presented code (trim + upper-case), then run the claim body. -/
def promoClaim (db : Db) (code userId : String) (now : Int) (nowIsoStr : String) :
    PromoClaimRes × Db :=
  if code = "" || userId = "" then (.badRequest, db)
  else promoClaimNorm db (upperStr (trimStr code)) userId now nowIsoStr

/-- Response body of a successful /user/login. -/
structure LoginResp where
  platform : Option String
  slot_id : Option String
  slot_name : Option String
  headline : Option String
  last_email : Option String
  last_password : Option String
  start_time : Option String
  end_time : Option String
  user_id : Option String
  label_mode : Option String
  actions : ActionsConf
  invite_link : Option String
deriving DecidableEq

/-- Result of the /user/login route. -/
inductive LoginRes where
  | badRequest
  | invalidCode
  | inactive
  | expired
  | ok (resp : LoginResp)
deriving DecidableEq

/-- Body of /user/login after input validation, acting on the normalised
code. -/
def userLoginNorm (db : Db) (normCode : String) (now : Int) : LoginRes :=
  match List.lookup normCode db.transactions with
  | none => .invalidCode
  | some trx =>
    if trx.hidden then .inactive
    else if endTimePassed trx.end_time now then .expired
    else
      let slot := (presentStr trx.slot_id).bind (fun sid => List.lookup sid db.slots)
      let platform :=
        match presentStr trx.platform with
        | some p => some p
        | none => slot.bind (fun s => presentStr s.platform)
      let actions :=
        match platform.bind (fun p => List.lookup p db.platform_actions) with
        | some a => a
        | none => (List.lookup "default" db.platform_actions).getD ⟨false, false, false, false⟩
      let inviteLink :=
        if actions.invite_enabled then
          match presentStr trx.invite_link_short with
          | some l => some l
          | none =>
            match presentStr trx.invite_link_long with
            | some l => some l
            | none =>
              match presentStr trx.assign_to with
              | some k =>
                match List.lookup k db.root with
                | some cred => presentStr cred.invite_link
                | none => none
              | none => none
        else none
      .ok
        { platform := platform
          slot_id := presentStr trx.slot_id
          slot_name := presentStr (some trx.slot_name)
          headline := presentStr (some trx.headline)
          last_email := presentStr trx.last_email
          last_password := presentStr trx.last_password
          start_time := presentStr (some trx.start_time)
          end_time := presentStr (some trx.end_time)
          user_id := presentStr (some trx.user_id)
          label_mode := presentStr (some trx.label_mode)
          actions := actions
          invite_link := inviteLink }

/-- Embedding of the /user/login route. -/
def userLogin (db : Db) (code : String) (now : Int) : LoginRes :=
  if code = "" then .badRequest else userLoginNorm db (upperStr (trimStr code)) now

/-- Result of the /account/refresh route. -/
inductive RefreshRes where
  | badRequest
  | invalidCode
  | expired
  | noCred
  | credNotFound
  | unchanged (email password : String)
  | refreshed (email password : String)
deriving DecidableEq

/-- Credential-comparison tail of /account/refresh: compare the bound
credential's current payload with the lease's stored snapshot; on a match
return the explicit unchanged outcome with no write, otherwise overwrite
the snapshot. -/
def refreshGo (db : Db) (normCode : String) (trx : Txn) : RefreshRes × Db :=
  match presentStr trx.assign_to with
  | none => (.noCred, db)
  | some credKey =>
    match List.lookup credKey db.root with
    | none => (.credNotFound, db)
    | some cred =>
      let newEmail := (presentStr cred.email).getD ""
      let newPassword := (presentStr cred.password).getD ""
      let lastEmail := (presentStr trx.last_email).getD ""
      let lastPassword := (presentStr trx.last_password).getD ""
      if newEmail = lastEmail ∧ newPassword = lastPassword then
        (.unchanged newEmail newPassword, db)
      else
        (.refreshed newEmail newPassword,
          { db with
            transactions := updateAssoc db.transactions normCode (fun t =>
              { t with last_email := some newEmail, last_password := some newPassword }) })

/-- Body of /account/refresh after input validation, acting on the
normalised code. -/
def accountRefreshNorm (db : Db) (normCode : String) (now : Int) : RefreshRes × Db :=
  match List.lookup normCode db.transactions with
  | none => (.invalidCode, db)
  | some trx =>
    if endTimePassed trx.end_time now then (.expired, db)
    else refreshGo db normCode trx

/-- Embedding of the /account/refresh route. -/
def accountRefresh (db : Db) (code : String) (now : Int) : RefreshRes × Db :=
  if code = "" then (.badRequest, db) else accountRefreshNorm db (upperStr (trimStr code)) now

/-- Result of the /account/get-otp route. -/
inductive OtpRes where
  | badRequest
  | invalidCode
  | expired
  | noCred
  | credNotFound
  | noSecret
  | ok (otp : String) (ttl : Nat)
deriving DecidableEq

/-- Body of /account/get-otp after input validation, acting on the
normalised code; now is the request instant in milliseconds (non-negative,
shared by the expiry check and the TOTP clock). -/
def accountGetOtpNorm (db : Db) (normCode : String) (now : Int) : OtpRes × Db :=
  match List.lookup normCode db.transactions with
  | none => (.invalidCode, db)
  | some trx =>
    if endTimePassed trx.end_time now then (.expired, db)
    else
      match presentStr trx.assign_to with
      | none => (.noCred, db)
      | some credKey =>
        match List.lookup credKey db.root with
        | none => (.credNotFound, db)
        | some cred =>
          let secret := trimStr ((presentStr cred.secret).getD "")
          if secret = "" then (.noSecret, db)
          else
            let otp := generateTotp secret 30 6 now.toNat
            (.ok otp.1 otp.2,
              { db with
                transactions := updateAssoc db.transactions normCode (fun t =>
                  { t with otp_delivered := true }) })

/-- Embedding of the /account/get-otp route. -/
def accountGetOtp (db : Db) (code : String) (now : Int) : OtpRes × Db :=
  if code = "" then (.badRequest, db) else accountGetOtpNorm db (upperStr (trimStr code)) now

/-- Outcome of one poll of the external mail-delivery endpoint, indexed
by attempt number: the fetch call throws, or a response parses to a
payload with a status string and a code string (a body that fails
JSON.parse is the payload with both fields empty). -/
inductive PollOutcome where
  | httpError
  | payload (status : String) (codeField : String)

/-- Aggregate outcome of the polling loop: the delivered code (if any),
the backoff sleeps taken in milliseconds, and the number of polls
performed. -/
structure PollOut where
  code : Option String
  sleeps : List Nat
  polls : Nat
deriving DecidableEq

/-- The while-loop of /account/get-code: up to 3 polls, continuing with a
backoff of attempt x 1000 ms while the endpoint reports "not_found",
stopping early on "success" (delivering the trimmed code when non-empty)
or on any other status or fetch error. -/
def pollLoop (env : Nat → PollOutcome) : Nat → Nat → PollOut
  | _, 0 => ⟨none, [], 0⟩
  | attempts, fuel + 1 =>
    let attempt := attempts + 1
    match env attempt with
    | .httpError => ⟨none, [], 1⟩
    | .payload status codeField =>
      let s := lowerStr status
      if s = "success" then
        ⟨if trimStr codeField = "" then none else some (trimStr codeField), [], 1⟩
      else if s = "not_found" then
        if attempt < 3 then
          let r := pollLoop env attempt fuel
          ⟨r.code, 1000 * attempt :: r.sleeps, r.polls + 1⟩
        else ⟨none, [], 1⟩
      else ⟨none, [], 1⟩

/-- Aggregate outcome of the window-guarded fetch core. -/
structure CoreOut where
  busy : Bool
  delivered : Option String
  windows : List (String × Int)
  windowWrites : List Int
  sleeps : List Nat
  polls : Nat

/-- Window-guarded core of /account/get-code: fail fast with a busy
signal while runtime/code_windows/<platform>.window_until is in the
future; otherwise hold the window until nowTs + 90, run the polling loop,
and clear the window to 0 unconditionally before returning.
windowWrites is the ordered log of values written to window_until. -/
def getCodeCore (windows : List (String × Int)) (env : Nat → PollOutcome) (platformKey : String)
    (nowTs : Int) : CoreOut :=
  let windowUntil := (List.lookup platformKey windows).getD 0
  if nowTs < windowUntil then ⟨true, none, windows, [], [], 0⟩
  else
    let w1 := setAssoc windows platformKey (nowTs + 90)
    let p := pollLoop env 0 3
    ⟨false, p.code, setAssoc w1 platformKey 0, [nowTs + 90, 0], p.sleeps, p.polls⟩

/-- Result of the /account/get-code route. -/
inductive CodeRes where
  | badRequest
  | invalidCode
  | expired
  | noCred
  | credNotFound
  | noEmail
  | noPlatform
  | internalErr
  | busy
  | noCodeYet
  | fetched (c : String)
deriving DecidableEq

/-- Body of /account/get-code after input validation, acting on the
normalised code.  The platform falls back to the credential's raw
belongs_to_platform value when the lease has none; an array value there
makes the source throw on toLowerCase (internal error). -/
def accountGetCodeNorm (db : Db) (env : Nat → PollOutcome) (normCode : String) (now : Int) :
    CodeRes × Db × List Nat :=
  match List.lookup normCode db.transactions with
  | none => (.invalidCode, db, [])
  | some trx =>
    if endTimePassed trx.end_time now then (.expired, db, [])
    else
      match presentStr trx.assign_to with
      | none => (.noCred, db, [])
      | some credKey =>
        match List.lookup credKey db.root with
        | none => (.credNotFound, db, [])
        | some cred =>
          let email := trimStr ((presentStr cred.email).getD "")
          if email = "" then (.noEmail, db, [])
          else
            let platform0 := trimStr ((presentStr trx.platform).getD "")
            let platform? :=
              if platform0 ≠ "" then some (some platform0)
              else
                match cred.belongs_to_platform with
                | .str s => if s = "" then some none else some (some s)
                | .arr _ => none
                | .absent => some none
            match platform? with
            | none => (.internalErr, db, [])
            | some none => (.noPlatform, db, [])
            | some (some platform) =>
              let core := getCodeCore db.code_windows env (lowerStr platform) (now / 1000)
              let db2 := { db with code_windows := core.windows }
              if core.busy then (.busy, db2, core.sleeps)
              else
                match core.delivered with
                | none => (.noCodeYet, db2, core.sleeps)
                | some c =>
                  (.fetched c,
                    { db2 with
                      transactions := updateAssoc db2.transactions normCode (fun t =>
                        { t with code_delivered := true }) },
                    core.sleeps)

/-- Embedding of the /account/get-code route. -/
def accountGetCode (db : Db) (env : Nat → PollOutcome) (code : String) (now : Int) :
    CodeRes × Db × List Nat :=
  if code = "" then (.badRequest, db, [])
  else accountGetCodeNorm db env (upperStr (trimStr code)) now

theorem lookup_setAssoc_self {α : Type} (l : List (String × α)) (k : String) (v : α) :
    List.lookup k (setAssoc l k v) = some v := by
  induction l with
  | nil => simp [setAssoc, List.lookup]
  | cons hd tl ih =>
    obtain ⟨k2, v2⟩ := hd
    by_cases h : k2 = k
    · simp [setAssoc, List.lookup, h]
    · have hne : (k == k2) = false := beq_eq_false_iff_ne.mpr (fun hkk => h hkk.symm)
      have hne2 : (k2 == k) = false := beq_eq_false_iff_ne.mpr h
      simp [setAssoc, List.lookup, hne, hne2, ih]

theorem lookup_updateAssoc_self {α : Type} (l : List (String × α)) (k : String) (f : α → α) :
    List.lookup k (updateAssoc l k f) = (List.lookup k l).map f := by
  induction l with
  | nil => simp [updateAssoc, List.lookup]
  | cons hd tl ih =>
    obtain ⟨k2, v2⟩ := hd
    by_cases h : k2 = k
    · simp [updateAssoc, List.lookup, h]
    · have hne : (k == k2) = false := beq_eq_false_iff_ne.mpr (fun hkk => h hkk.symm)
      have hne2 : (k2 == k) = false := beq_eq_false_iff_ne.mpr h
      simp [updateAssoc, List.lookup, hne, hne2, ih]

/-- C2: each claim attempt checks its failure conditions in the fixed
order NotFound (no promo record), then Revoked, then Expired (expiry set,
parseable and in the past), then AlreadyUsedUp (used_count at or above
max_uses); in particular an expired code fails Expired regardless of the
remaining uses, whatever the schedule and remaining retries. -/
theorem claim_failure_order (sched : Nat → AttemptSched) (uid : String) (now : Nat → Int)
    (tstr : Nat → String) (i fuel : Nat) :
    claimGo sched uid now tstr i (fuel + 1) none = (ClaimResult.notFound, none, []) ∧
    (∀ p : Promo, p.revoked = true →
      claimGo sched uid now tstr i (fuel + 1) (some p) = (ClaimResult.revoked, some p, [])) ∧
    (∀ p : Promo, p.revoked = false → promoExpired p (now i) = true →
      claimGo sched uid now tstr i (fuel + 1) (some p) = (ClaimResult.expired, some p, [])) ∧
    (∀ p : Promo, p.revoked = false → promoExpired p (now i) = false →
      p.max_uses ≤ p.used_count →
      claimGo sched uid now tstr i (fuel + 1) (some p) = (ClaimResult.alreadyUsedUp, some p, [])) := by
  refine ⟨rfl, ?_, ?_, ?_⟩
  · intro p h1
    simp [claimGo, h1]
  · intro p h1 h2
    simp [claimGo, h1, h2]
  · intro p h1 h2 h3
    simp [claimGo, h1, h2, h3]

/-- Example promo code for the C2 witness: expired with all 10 uses
remaining. -/
def promoExpEx : Promo :=
  ⟨some "s1", false, some 5, 0, 10, none, none, []⟩

theorem claim_failure_order_witness :
    claimGo idSched "u" (fun _ => 100) (fun _ => "t") 0 4 (some promoExpEx) =
      (ClaimResult.expired, some promoExpEx, []) :=
  (claim_failure_order idSched "u" (fun _ => 100) (fun _ => "t") 0 3).2.2.1 promoExpEx
    (by decide) (by decide)

theorem claimGo_retry_bound (sched : Nat → AttemptSched) (uid : String) (now : Nat → Int)
    (tstr : Nat → String) :
    ∀ (fuel i : Nat) (store : Option Promo),
      (claimGo sched uid now tstr i fuel store).2.2.length ≤ fuel ∧
      ((claimGo sched uid now tstr i fuel store).1 = ClaimResult.raceFailed ↔
        (claimGo sched uid now tstr i fuel store).2.2.length = fuel) ∧
      (∀ j, j < (claimGo sched uid now tstr i fuel store).2.2.length →
        (claimGo sched uid now tstr i fuel store).2.2.getD j 0 =
          if (sched (i + j)).writeOk then 80 else 100) := by
  intro fuel
  induction fuel with
  | zero => intro i store; simp [claimGo]
  | succ fuel ih =>
    intro i store
    match store with
    | none => simp [claimGo]
    | some p =>
      by_cases h1 : p.revoked
      · simp [claimGo, h1]
      · by_cases h2 : promoExpired p (now i)
        · simp [claimGo, h1, h2]
        · by_cases h3 : p.max_uses ≤ p.used_count
          · simp [claimGo, h1, h2, h3]
          · by_cases h4 : (sched i).writeOk
            · by_cases h5 :
                ((sched i).mid (promoPatch ((sched i).pre p) p uid (tstr i))).used_count =
                  p.used_count + 1
              · simp [claimGo, h1, h2, h3, h4, h5]
              · have e : claimGo sched uid now tstr i (fuel + 1) (some p) =
                    ((claimGo sched uid now tstr (i + 1) fuel
                        (some ((sched i).mid (promoPatch ((sched i).pre p) p uid (tstr i))))).1,
                      (claimGo sched uid now tstr (i + 1) fuel
                        (some ((sched i).mid (promoPatch ((sched i).pre p) p uid (tstr i))))).2.1,
                      80 :: (claimGo sched uid now tstr (i + 1) fuel
                        (some ((sched i).mid (promoPatch ((sched i).pre p) p uid (tstr i))))).2.2) := by
                  simp [claimGo, h1, h2, h3, h4, h5]
                obtain ⟨ha, hb, hc⟩ := ih (i + 1)
                  (some ((sched i).mid (promoPatch ((sched i).pre p) p uid (tstr i))))
                rw [e]
                refine ⟨by simpa using Nat.succ_le_succ ha, by simpa using hb, ?_⟩
                intro j hj
                cases j with
                | zero => simp [h4]
                | succ j =>
                  have h6 := hc j (Nat.lt_of_succ_lt_succ (by simpa using hj))
                  simp only [List.getD_cons_succ]
                  rw [show i + (j + 1) = i + 1 + j by omega]
                  exact h6
            · have e : claimGo sched uid now tstr i (fuel + 1) (some p) =
                  ((claimGo sched uid now tstr (i + 1) fuel
                      (some ((sched i).mid ((sched i).pre p)))).1,
                    (claimGo sched uid now tstr (i + 1) fuel
                      (some ((sched i).mid ((sched i).pre p)))).2.1,
                    100 :: (claimGo sched uid now tstr (i + 1) fuel
                      (some ((sched i).mid ((sched i).pre p)))).2.2) := by
                simp [claimGo, h1, h2, h3, h4]
              obtain ⟨ha, hb, hc⟩ := ih (i + 1) (some ((sched i).mid ((sched i).pre p)))
              rw [e]
              refine ⟨by simpa using Nat.succ_le_succ ha, by simpa using hb, ?_⟩
              intro j hj
              cases j with
              | zero => simp [h4]
              | succ j =>
                have h6 := hc j (Nat.lt_of_succ_lt_succ (by simpa using hj))
                simp only [List.getD_cons_succ]
                rw [show i + (j + 1) = i + 1 + j by omega]
                exact h6

/-- C3: claimPromoCodeAtomic with the default budget performs at most 4
attempts; every retry is caused either by a failed store write (backoff
100 ms) or by a post-write verification mismatch (backoff 80 ms), and the
result is the terminal RaceFailed exactly when all 4 attempts were spent
on such transient failures. -/
theorem claim_retry_protocol (sched : Nat → AttemptSched) (uid : String) (now : Nat → Int)
    (tstr : Nat → String) (store : Option Promo) :
    (claimPromoCodeAtomic sched uid now tstr 4 store).2.2.length ≤ 4 ∧
    ((claimPromoCodeAtomic sched uid now tstr 4 store).1 = ClaimResult.raceFailed ↔
      (claimPromoCodeAtomic sched uid now tstr 4 store).2.2.length = 4) ∧
    (∀ j, j < (claimPromoCodeAtomic sched uid now tstr 4 store).2.2.length →
      (claimPromoCodeAtomic sched uid now tstr 4 store).2.2.getD j 0 =
        if (sched j).writeOk then 80 else 100) := by
  have h := claimGo_retry_bound sched uid now tstr 4 0 store
  refine ⟨h.1, h.2.1, ?_⟩
  intro j hj
  simpa using h.2.2 j hj

/-- Schedule in which every store write fails, for the C3 witness. -/
def failSched : Nat → AttemptSched := fun _ => ⟨id, false, id⟩

/-- Example claimable promo code for the C1/C3 witnesses. -/
def promoEx : Promo :=
  ⟨some "s1", false, none, 0, 2, none, none, []⟩

theorem claim_retry_protocol_witness :
    (claimPromoCodeAtomic failSched "u" (fun _ => 0) (fun _ => "t") 4 (some promoEx)).1 =
      ClaimResult.raceFailed :=
  (claim_retry_protocol failSched "u" (fun _ => 0) (fun _ => "t") (some promoEx)).2.1.mpr
    (by decide)

theorem claimGo_success_pre_read (sched : Nat → AttemptSched) (uid : String) (now : Nat → Int)
    (tstr : Nat → String) :
    ∀ (fuel i : Nat) (store st2 : Option Promo) (after : Promo) (bs : List Nat),
      claimGo sched uid now tstr i fuel store = (ClaimResult.success after, st2, bs) →
      ∃ readp : Promo, readp.used_count < readp.max_uses ∧
        after.used_count = readp.used_count + 1 ∧ st2 = some after := by
  intro fuel
  induction fuel with
  | zero => intro i store st2 after bs h; simp [claimGo] at h
  | succ fuel ih =>
    intro i store st2 after bs h
    match store with
    | none => simp [claimGo] at h
    | some p =>
      by_cases h1 : p.revoked
      · simp [claimGo, h1] at h
      · by_cases h2 : promoExpired p (now i)
        · simp [claimGo, h1, h2] at h
        · by_cases h3 : p.max_uses ≤ p.used_count
          · simp [claimGo, h1, h2, h3] at h
          · by_cases h4 : (sched i).writeOk
            · by_cases h5 :
                ((sched i).mid (promoPatch ((sched i).pre p) p uid (tstr i))).used_count =
                  p.used_count + 1
              · simp only [claimGo, if_neg h1, if_neg h2, if_neg h3, if_pos h4, if_pos h5,
                  Prod.mk.injEq, ClaimResult.success.injEq] at h
                obtain ⟨ha, hb, hbs⟩ := h
                exact ⟨p, not_le.mp h3, ha ▸ h5, ha ▸ hb.symm⟩
              · have e : claimGo sched uid now tstr i (fuel + 1) (some p) =
                    ((claimGo sched uid now tstr (i + 1) fuel
                        (some ((sched i).mid (promoPatch ((sched i).pre p) p uid (tstr i))))).1,
                      (claimGo sched uid now tstr (i + 1) fuel
                        (some ((sched i).mid (promoPatch ((sched i).pre p) p uid (tstr i))))).2.1,
                      80 :: (claimGo sched uid now tstr (i + 1) fuel
                        (some ((sched i).mid (promoPatch ((sched i).pre p) p uid (tstr i))))).2.2) := by
                  simp [claimGo, h1, h2, h3, h4, h5]
                rw [e] at h
                simp only [Prod.mk.injEq] at h
                obtain ⟨ha, hb, hbs⟩ := h
                exact ih (i + 1) (some ((sched i).mid (promoPatch ((sched i).pre p) p uid (tstr i))))
                  st2 after _ (by rw [← ha, ← hb])
            · have e : claimGo sched uid now tstr i (fuel + 1) (some p) =
                  ((claimGo sched uid now tstr (i + 1) fuel
                      (some ((sched i).mid ((sched i).pre p)))).1,
                    (claimGo sched uid now tstr (i + 1) fuel
                      (some ((sched i).mid ((sched i).pre p)))).2.1,
                    100 :: (claimGo sched uid now tstr (i + 1) fuel
                      (some ((sched i).mid ((sched i).pre p)))).2.2) := by
                simp [claimGo, h1, h2, h3, h4]
              rw [e] at h
              simp only [Prod.mk.injEq] at h
              obtain ⟨ha, hb, hbs⟩ := h
              exact ih (i + 1) (some ((sched i).mid ((sched i).pre p))) st2 after _
                (by rw [← ha, ← hb])

theorem claimHist_max_uses_const {p0 : Promo} {hist : List Promo} (h : ClaimHist p0 hist) :
    ∀ q ∈ hist, q.max_uses = p0.max_uses := by
  induction h with
  | init => intro q hq; simp at hq; rw [hq]
  | @step cur r l uid t now hh hr he ih =>
    intro q hq
    rcases List.mem_cons.mp hq with hq | hq
    · subst hq
      show cur.max_uses = p0.max_uses
      exact ih cur (List.mem_cons_self _ _)
    · exact ih q hq

theorem claimHist_invariant {p0 : Promo} {hist : List Promo} (h : ClaimHist p0 hist) :
    ∀ q ∈ hist, p0.used_count ≤ p0.max_uses → q.used_count ≤ q.max_uses := by
  induction h with
  | init => intro q hq h0; simp at hq; rw [hq]; exact h0
  | @step cur r l uid t now hh hr he ih =>
    intro q hq h0
    rcases List.mem_cons.mp hq with hq | hq
    · have hrlt : r.used_count < r.max_uses := by
        simp only [claimEligible, Bool.and_eq_true, decide_eq_true_eq] at he
        exact he.2
      have hrmax : r.max_uses = p0.max_uses := claimHist_max_uses_const hh r hr
      have hcur : cur.max_uses = p0.max_uses :=
        claimHist_max_uses_const hh cur (List.mem_cons_self _ _)
      subst hq
      show r.used_count + 1 ≤ cur.max_uses
      omega
    · exact ih q hq h0

/-- C1: claimPromoCodeAtomic succeeds only on the strength of a pre-read
record whose used_count is strictly below max_uses, and the verified
post-state increments that pre-read used_count by exactly one; moreover
along every history of claim steps (with arbitrarily stale reads that
passed the pre-write checks) the invariant used_count ≤ max_uses is
preserved in every state. -/
theorem claim_used_count_invariant :
    (∀ (sched : Nat → AttemptSched) (uid : String) (now : Nat → Int) (tstr : Nat → String)
      (maxRetries : Nat) (store st2 : Option Promo) (after : Promo) (bs : List Nat),
      claimPromoCodeAtomic sched uid now tstr maxRetries store =
        (ClaimResult.success after, st2, bs) →
      ∃ readp : Promo, readp.used_count < readp.max_uses ∧
        after.used_count = readp.used_count + 1 ∧ st2 = some after) ∧
    (∀ (p0 : Promo) (hist : List Promo), ClaimHist p0 hist →
      p0.used_count ≤ p0.max_uses → ∀ q ∈ hist, q.used_count ≤ q.max_uses) :=
  ⟨fun sched uid now tstr maxRetries store st2 after bs h =>
    claimGo_success_pre_read sched uid now tstr maxRetries 0 store st2 after bs h,
   fun _ _ h h0 q hq => claimHist_invariant h q hq h0⟩

/-- The post-state of one quiet successful claim of promoEx, for the C1
witness. -/
def promoAfterEx : Promo :=
  ⟨some "s1", false, none, 1, 2, some "u", some "t", [⟨"u", "t"⟩]⟩

theorem claim_used_count_invariant_witness :
    (∃ readp : Promo, readp.used_count < readp.max_uses ∧
      promoAfterEx.used_count = readp.used_count + 1 ∧
      (some promoAfterEx : Option Promo) = some promoAfterEx) ∧
    (∀ q ∈ [promoAfterEx, promoEx], q.used_count ≤ q.max_uses) := by
  constructor
  · exact claim_used_count_invariant.1 idSched "u" (fun _ => 0) (fun _ => "t") 4 (some promoEx)
      (some promoAfterEx) promoAfterEx [] (by decide)
  · exact claim_used_count_invariant.2 promoEx [promoAfterEx, promoEx]
      (ClaimHist.step "u" "t" 0 (ClaimHist.init promoEx) (List.mem_cons_self _ _) (by decide))
      (by decide)

theorem credCandidate_spec {slotId slotPlatform : String} {now : Int} {k : String} {c : Cred}
    {cand : Candidate} (h : credCandidate slotId slotPlatform now k c = some cand) :
    cand.key = k ∧ cand.node = c ∧
    c.locked ≠ 1 ∧
    (c.max_usage = 0 ∨ c.usage_count < c.max_usage) ∧
    credExpired c.expiry_date now = false ∧
    cand.appliesSlot = (ownsSlotsOf c).contains (lowerStr slotId) ∧
    cand.appliesPlat = (slotPlatform != "" && (ownsPlatsOf c).contains slotPlatform) ∧
    cand.appliesAll = ((ownsSlotsOf c).contains "all" || (ownsPlatsOf c).contains "all") ∧
    (!cand.appliesSlot && !cand.appliesPlat && !cand.appliesAll) = false := by
  simp only [credCandidate] at h
  split_ifs at h with h1 h2 h3 h4 h5
  injection h with h
  subst h
  refine ⟨rfl, rfl, ?_, ?_, ?_, rfl, rfl, rfl, ?_⟩
  · simpa using h3
  · by_cases hz : c.max_usage = 0
    · exact Or.inl hz
    · refine Or.inr ?_
      by_cases hle : c.max_usage ≤ c.usage_count
      · exact absurd (by simp [hz, hle]) h4
      · exact not_le.mp hle
  · simpa using h5
  · simpa using h2

theorem candidatesFor_mem {root : List (String × Cred)} {slotId slotPlatform : String} {now : Int}
    {cand : Candidate} (h : cand ∈ candidatesFor root slotId slotPlatform now) :
    ∃ k c, (k, c) ∈ root ∧ credCandidate slotId slotPlatform now k c = some cand := by
  simp only [candidatesFor] at h
  obtain ⟨a, ha, hfa⟩ := List.mem_filterMap.mp h
  exact ⟨a.1, a.2, ha, hfa⟩

theorem find?_of_any {α : Type} (p : α → Bool) (l : List α) (h : l.any p = true) :
    ∃ a, l.find? p = some a := by
  induction l with
  | nil => simp at h
  | cons x xs ih =>
    by_cases hx : p x
    · exact ⟨x, by simp [List.find?_cons, hx]⟩
    · have h2 : xs.any p = true := by
        simpa [List.any_cons, hx] using h
      obtain ⟨a, ha⟩ := ih h2
      exact ⟨a, by simp [List.find?_cons, hx, ha]⟩

theorem select_mem_facts {root : List (String × Cred)} {slotId : String} {slotInfo : Slot}
    {now : Int} {k : String} {c : Cred}
    (h : selectCredentialForSlot root slotId slotInfo now = some (k, c)) :
    ∃ cand,
      cand ∈ candidatesFor root slotId (lowerStr ((presentStr slotInfo.platform).getD "")) now ∧
      cand.key = k ∧ cand.node = c := by
  simp only [selectCredentialForSlot] at h
  rcases hf1 : (candidatesFor root slotId (lowerStr ((presentStr slotInfo.platform).getD ""))
      now).find? (fun c => c.appliesSlot) with _ | c1
  · rw [hf1] at h
    rcases hf2 : (candidatesFor root slotId (lowerStr ((presentStr slotInfo.platform).getD ""))
        now).find? (fun c => c.appliesPlat) with _ | c2
    · rw [hf2] at h
      rcases hf3 : (candidatesFor root slotId (lowerStr ((presentStr slotInfo.platform).getD ""))
          now).find? (fun c => c.appliesAll) with _ | c3
      · rw [hf3] at h
        exact absurd h (by simp)
      · rw [hf3] at h
        injection h with h
        exact ⟨c3, List.mem_of_find?_eq_some hf3, congrArg Prod.fst h, congrArg Prod.snd h⟩
    · rw [hf2] at h
      injection h with h
      exact ⟨c2, List.mem_of_find?_eq_some hf2, congrArg Prod.fst h, congrArg Prod.snd h⟩
  · rw [hf1] at h
    injection h with h
    exact ⟨c1, List.mem_of_find?_eq_some hf1, congrArg Prod.fst h, congrArg Prod.snd h⟩

/-- C4: the selector never returns a locked, usage-capped or expired
candidate (expiry compared at day granularity against the end-of-day
instant); among the surviving candidates the strict priority is
slot-ownership, then platform-ownership, then the wildcard "all"; no
eligible candidate means no resource; and the day-granularity expiry test
excludes a date whose end of day has passed while keeping one whose end of
day has not (so yesterday is excluded and today included). -/
theorem select_credential_policy (root : List (String × Cred)) (slotId : String)
    (slotInfo : Slot) (now : Int) :
    (∀ k c, selectCredentialForSlot root slotId slotInfo now = some (k, c) →
      c.locked ≠ 1 ∧ (c.max_usage = 0 ∨ c.usage_count < c.max_usage) ∧
      credExpired c.expiry_date now = false) ∧
    ((candidatesFor root slotId (lowerStr ((presentStr slotInfo.platform).getD "")) now).any
        (fun c => c.appliesSlot) = true →
      ∃ k c, selectCredentialForSlot root slotId slotInfo now = some (k, c) ∧
        (ownsSlotsOf c).contains (lowerStr slotId) = true) ∧
    ((candidatesFor root slotId (lowerStr ((presentStr slotInfo.platform).getD "")) now).any
        (fun c => c.appliesSlot) = false →
      (candidatesFor root slotId (lowerStr ((presentStr slotInfo.platform).getD "")) now).any
          (fun c => c.appliesPlat) = true →
      ∃ k c, selectCredentialForSlot root slotId slotInfo now = some (k, c) ∧
        (ownsPlatsOf c).contains (lowerStr ((presentStr slotInfo.platform).getD "")) = true) ∧
    ((candidatesFor root slotId (lowerStr ((presentStr slotInfo.platform).getD "")) now).any
        (fun c => c.appliesSlot) = false →
      (candidatesFor root slotId (lowerStr ((presentStr slotInfo.platform).getD "")) now).any
          (fun c => c.appliesPlat) = false →
      (candidatesFor root slotId (lowerStr ((presentStr slotInfo.platform).getD "")) now).any
          (fun c => c.appliesAll) = true →
      ∃ k c, selectCredentialForSlot root slotId slotInfo now = some (k, c) ∧
        ((ownsSlotsOf c).contains "all" || (ownsPlatsOf c).contains "all") = true) ∧
    (selectCredentialForSlot root slotId slotInfo now = none ↔
      candidatesFor root slotId (lowerStr ((presentStr slotInfo.platform).getD "")) now = []) ∧
    (∀ (s : String) (y m d : Int), s ≠ "" → ymdOf s = some (y, m, d) →
      (dayMs y m (d + 1) < now → credExpired (some s) now = true) ∧
      (now ≤ dayMs y m (d + 1) → credExpired (some s) now = false)) := by
  refine ⟨?_, ?_, ?_, ?_, ?_, ?_⟩
  · intro k c h
    obtain ⟨cand, hmem, hk, hc⟩ := select_mem_facts h
    obtain ⟨k0, c0, hkc, hcc⟩ := candidatesFor_mem hmem
    obtain ⟨sk, sn, sl, su, se, _, _, _, _⟩ := credCandidate_spec hcc
    have hce : c0 = c := sn.symm.trans hc
    subst hce
    exact ⟨sl, su, se⟩
  · intro hany
    obtain ⟨c1, hf⟩ := find?_of_any _ _ hany
    have hmem := List.mem_of_find?_eq_some hf
    have hp : c1.appliesSlot = true := by simpa using List.find?_some hf
    have hsel : selectCredentialForSlot root slotId slotInfo now = some (c1.key, c1.node) := by
      simp only [selectCredentialForSlot]
      rw [hf]
    obtain ⟨k0, c0, hkc, hcc⟩ := candidatesFor_mem hmem
    obtain ⟨sk, sn, _, _, _, sflag, _, _, _⟩ := credCandidate_spec hcc
    refine ⟨c1.key, c1.node, hsel, ?_⟩
    rw [sn, ← sflag]
    exact hp
  · intro hno1 hany
    have hf1 : (candidatesFor root slotId (lowerStr ((presentStr slotInfo.platform).getD ""))
        now).find? (fun c => c.appliesSlot) = none := by
      rw [List.find?_eq_none]
      intro x hx
      have := List.any_eq_false.mp hno1 x hx
      simpa using this
    obtain ⟨c2, hf⟩ := find?_of_any _ _ hany
    have hmem := List.mem_of_find?_eq_some hf
    have hp : c2.appliesPlat = true := by simpa using List.find?_some hf
    have hsel : selectCredentialForSlot root slotId slotInfo now = some (c2.key, c2.node) := by
      simp only [selectCredentialForSlot]
      rw [hf1, hf]
    obtain ⟨k0, c0, hkc, hcc⟩ := candidatesFor_mem hmem
    obtain ⟨sk, sn, _, _, _, _, sflag, _, _⟩ := credCandidate_spec hcc
    refine ⟨c2.key, c2.node, hsel, ?_⟩
    rw [hp] at sflag
    have := (Bool.and_eq_true _ _).mp sflag.symm
    rw [sn]
    exact this.2
  · intro hno1 hno2 hany
    have hf1 : (candidatesFor root slotId (lowerStr ((presentStr slotInfo.platform).getD ""))
        now).find? (fun c => c.appliesSlot) = none := by
      rw [List.find?_eq_none]
      intro x hx
      simpa using List.any_eq_false.mp hno1 x hx
    have hf2 : (candidatesFor root slotId (lowerStr ((presentStr slotInfo.platform).getD ""))
        now).find? (fun c => c.appliesPlat) = none := by
      rw [List.find?_eq_none]
      intro x hx
      simpa using List.any_eq_false.mp hno2 x hx
    obtain ⟨c3, hf⟩ := find?_of_any _ _ hany
    have hmem := List.mem_of_find?_eq_some hf
    have hp : c3.appliesAll = true := by simpa using List.find?_some hf
    have hsel : selectCredentialForSlot root slotId slotInfo now = some (c3.key, c3.node) := by
      simp only [selectCredentialForSlot]
      rw [hf1, hf2, hf]
    obtain ⟨k0, c0, hkc, hcc⟩ := candidatesFor_mem hmem
    obtain ⟨sk, sn, _, _, _, _, _, sflag, _⟩ := credCandidate_spec hcc
    refine ⟨c3.key, c3.node, hsel, ?_⟩
    rw [sn, ← sflag]
    exact hp
  · constructor
    · intro h
      by_contra hne
      obtain ⟨c0, rest, hc⟩ := List.exists_cons_of_ne_nil hne
      have hmem : c0 ∈ candidatesFor root slotId
          (lowerStr ((presentStr slotInfo.platform).getD "")) now := by
        rw [hc]
        exact List.mem_cons_self _ _
      simp only [selectCredentialForSlot] at h
      rcases hf1 : (candidatesFor root slotId (lowerStr ((presentStr slotInfo.platform).getD ""))
          now).find? (fun c => c.appliesSlot) with _ | c1
      · rw [hf1] at h
        rcases hf2 : (candidatesFor root slotId
            (lowerStr ((presentStr slotInfo.platform).getD ""))
            now).find? (fun c => c.appliesPlat) with _ | c2
        · rw [hf2] at h
          rcases hf3 : (candidatesFor root slotId
              (lowerStr ((presentStr slotInfo.platform).getD ""))
              now).find? (fun c => c.appliesAll) with _ | c3
          · have e1 := List.find?_eq_none.mp hf1 c0 hmem
            have e2 := List.find?_eq_none.mp hf2 c0 hmem
            have e3 := List.find?_eq_none.mp hf3 c0 hmem
            obtain ⟨k0, c00, hkc, hcc⟩ := candidatesFor_mem hmem
            have hor := (credCandidate_spec hcc).2.2.2.2.2.2.2.2
            simp only [Bool.not_eq_true] at e1 e2 e3
            rw [e1, e2, e3] at hor
            simp at hor
          · rw [hf3] at h
            exact absurd h (by simp)
        · rw [hf2] at h
          exact absurd h (by simp)
      · rw [hf1] at h
        exact absurd h (by simp)
    · intro h
      simp only [selectCredentialForSlot]
      rw [h]
      simp [List.find?]
  · intro s y m d hs hymd
    constructor
    · intro hlt
      simp only [credExpired, if_neg hs, hymd]
      exact decide_eq_true hlt
    · intro hle
      simp only [credExpired, if_neg hs, hymd]
      exact decide_eq_false (not_lt.mpr hle)

/-- Witness data for C4: a slot-owned credential expiring yesterday, a
wildcard credential, and a slot-owned credential expiring today, scanned
at noon on 2025-01-15. -/
def credYestEx : Cred :=
  ⟨.str "slot1", .absent, 0, 0, 0, some "2025-01-14", some "y@x", some "pw", none, none⟩

/-- Wildcard credential for the C4 witness. -/
def credAllEx : Cred :=
  ⟨.str "all", .absent, 0, 0, 0, none, some "a@x", some "pw", none, none⟩

/-- Credential expiring today for the C4 witness. -/
def credTodayEx : Cred :=
  ⟨.str "slot1", .absent, 0, 0, 0, some "2025-01-15", some "t@x", some "pw", none, none⟩

/-- Slot record for the C4 and C6 witnesses (6-hour duration). -/
def slotEx : Slot := ⟨some "Premium", some "Netflix", true, some (DurVal.num 6)⟩

/-- Root scan list for the C4 witness. -/
def rootEx : List (String × Cred) :=
  [("cred1", credYestEx), ("cred2", credAllEx), ("cred3", credTodayEx)]

/-- Noon on 2025-01-15 as an instant. -/
def nowEx : Int := dayMs 2025 1 15 + 12 * 3600000

theorem select_credential_policy_witness :
    (∃ k c, selectCredentialForSlot rootEx "slot1" slotEx nowEx = some (k, c) ∧
      (ownsSlotsOf c).contains (lowerStr "slot1") = true) ∧
    credExpired (some "2025-01-14") nowEx = true ∧
    credExpired (some "2025-01-15") nowEx = false ∧
    selectCredentialForSlot rootEx "slot1" slotEx nowEx = some ("cred3", credTodayEx) := by
  refine ⟨(select_credential_policy rootEx "slot1" slotEx nowEx).2.1 (by decide), ?_, ?_,
    by decide⟩
  · exact ((select_credential_policy rootEx "slot1" slotEx nowEx).2.2.2.2.2 "2025-01-14"
      2025 1 14 (by decide) (by decide)).1 (by decide)
  · exact ((select_credential_policy rootEx "slot1" slotEx nowEx).2.2.2.2.2 "2025-01-15"
      2025 1 15 (by decide) (by decide)).2 (by decide)

theorem promoClaimSuccess_spec (db1 : Db) (codeText uid : String) (promo : Promo) (now : Int)
    (iso : String) (assigned : Bool) (txn : Txn) (res : PromoClaimRes) (dbOut : Db)
    (heq : promoClaimSuccess db1 codeText uid promo now iso = (res, dbOut))
    (hres : res = PromoClaimRes.claimed assigned txn) :
    ∃ slotId slot, List.lookup slotId db1.slots = some slot ∧ txn.slot_id = some slotId ∧
      txn.user_id = uid ∧ txn.start_time = formatDateTime now ∧
      txn.end_time = formatDateTime (now + durationHoursOf slot.duration_hours * 3600000) ∧
      txn.hidden = false ∧ txn.otp_delivered = false ∧ txn.code_delivered = false ∧
      List.lookup codeText dbOut.transactions = some txn := by
  subst hres
  cases hps : presentStr promo.slot_id with
  | none =>
    simp [promoClaimSuccess, hps] at heq
  | some slotId =>
    cases hsl : List.lookup slotId db1.slots with
    | none =>
      simp [promoClaimSuccess, hps, hsl] at heq
    | some slot =>
      cases hsel : selectCredentialForSlot db1.root slotId slot now with
      | none =>
        simp only [promoClaimSuccess, hps, hsl, hsel, Prod.mk.injEq,
          PromoClaimRes.claimed.injEq] at heq
        obtain ⟨⟨ha, htxn⟩, hdb⟩ := heq
        subst htxn
        subst hdb
        exact ⟨slotId, slot, hsl, rfl, rfl, rfl, rfl, rfl, rfl, rfl,
          lookup_setAssoc_self _ _ _⟩
      | some kc =>
        simp only [promoClaimSuccess, hps, hsl, hsel, Prod.mk.injEq,
          PromoClaimRes.claimed.injEq] at heq
        obtain ⟨⟨ha, htxn⟩, hdb⟩ := heq
        rw [lookup_updateAssoc_self, lookup_setAssoc_self] at htxn
        simp only [Option.map_some', Option.getD_some] at htxn
        subst htxn
        subst hdb
        refine ⟨slotId, slot, hsl, rfl, rfl, rfl, rfl, rfl, rfl, rfl, ?_⟩
        rw [show (Db.transactions _) = updateAssoc (setAssoc db1.transactions codeText _)
          codeText _ from rfl]
        rw [lookup_updateAssoc_self, lookup_setAssoc_self]
        rfl

theorem promoClaimNorm_claimed_spec (db : Db) (codeText uid : String) (now : Int) (iso : String)
    (assigned : Bool) (txn : Txn) (res : PromoClaimRes) (db2 : Db)
    (heq : promoClaimNorm db codeText uid now iso = (res, db2))
    (hres : res = PromoClaimRes.claimed assigned txn) :
    ∃ slotId slot, List.lookup slotId db.slots = some slot ∧ txn.slot_id = some slotId ∧
      txn.user_id = uid ∧ txn.start_time = formatDateTime now ∧
      txn.end_time = formatDateTime (now + durationHoursOf slot.duration_hours * 3600000) ∧
      txn.hidden = false ∧ txn.otp_delivered = false ∧ txn.code_delivered = false ∧
      List.lookup codeText db2.transactions = some txn := by
  subst hres
  rcases hC : claimPromoCodeAtomic idSched uid (fun _ => now) (fun _ => iso) 4
      (List.lookup codeText db.promo_codes) with ⟨r1, st, bs⟩
  cases st with
  | none =>
    cases r1 with
    | success promo =>
      simp only [promoClaimNorm, hC] at heq
      exact promoClaimSuccess_spec db codeText uid promo now iso assigned txn _ db2 heq rfl
    | notFound => simp [promoClaimNorm, hC] at heq
    | revoked => simp [promoClaimNorm, hC] at heq
    | expired => simp [promoClaimNorm, hC] at heq
    | alreadyUsedUp => simp [promoClaimNorm, hC] at heq
    | raceFailed => simp [promoClaimNorm, hC] at heq
  | some p2 =>
    cases r1 with
    | success promo =>
      simp only [promoClaimNorm, hC] at heq
      exact promoClaimSuccess_spec { db with
          promo_codes := setAssoc db.promo_codes codeText p2 }
        codeText uid promo now iso assigned txn _ db2 heq rfl
    | notFound => simp [promoClaimNorm, hC] at heq
    | revoked => simp [promoClaimNorm, hC] at heq
    | expired => simp [promoClaimNorm, hC] at heq
    | alreadyUsedUp => simp [promoClaimNorm, hC] at heq
    | raceFailed => simp [promoClaimNorm, hC] at heq


def oldTxnC5 : Txn :=
  ⟨some "Netflix", some "slot1", "Premium", "name", "Premium Account",
   "2025-01-10 10:00:00", "2025-01-20 10:00:00", "iso0", none, "alice", none, none, false,
   none, none, false, false⟩

def promoC5 : Promo := ⟨some "slot1", false, none, 1, 2, none, none, []⟩

def dbC5 : Db :=
  ⟨[("OORX", promoC5)], [("OORX", oldTxnC5)], [("slot1", slotEx)], ⟨none, false⟩, [], [], []⟩

/-- The fresh lease record the second successful claim of "OORX" writes,
for the C5 counterexample. -/
def txnC5new : Txn :=
  ⟨some "Netflix", some "slot1", "Premium", "name", "Premium Account",
   "2025-01-15 12:00:00", "2025-01-15 18:00:00", "iso1", none, "bob", none, none, false,
   none, none, false, false⟩

theorem lease_overwrite_cex :
    (promoClaim dbC5 "OORX" "bob" nowEx "iso1").1 = PromoClaimRes.claimed false txnC5new ∧
    List.lookup "OORX" (promoClaim dbC5 "OORX" "bob" nowEx "iso1").2.transactions =
      some txnC5new ∧
    txnC5new ≠ oldTxnC5 ∧ oldTxnC5.user_id ≠ txnC5new.user_id := by
  refine ⟨by decide, by decide, by decide, by decide⟩

/-- C5 (amended): the lease record is written anew on every successful
claim: a later successful Claim of the same code overwrites and
re-initialises the transaction record keyed by that code with a record
built from the new claim (new consumer, fresh start time, cleared flags),
regardless of any record previously stored under that key. -/
theorem lease_rewritten_on_success (db : Db) (code uid : String) (now : Int) (iso : String)
    (assigned : Bool) (txn : Txn)
    (h : (promoClaim db code uid now iso).1 = PromoClaimRes.claimed assigned txn) :
    List.lookup (upperStr (trimStr code)) (promoClaim db code uid now iso).2.transactions =
      some txn ∧
    txn.user_id = uid ∧ txn.start_time = formatDateTime now ∧
    txn.hidden = false ∧ txn.otp_delivered = false ∧ txn.code_delivered = false := by
  by_cases hg : (code = "" || uid = "") = true
  · rw [promoClaim] at h
    rw [if_pos hg] at h
    simp at h
  · have e : promoClaim db code uid now iso =
        promoClaimNorm db (upperStr (trimStr code)) uid now iso := by
      rw [promoClaim, if_neg hg]
    rw [e] at h ⊢
    have heq : promoClaimNorm db (upperStr (trimStr code)) uid now iso =
        (PromoClaimRes.claimed assigned txn,
          (promoClaimNorm db (upperStr (trimStr code)) uid now iso).2) := by
      rw [← h]
    obtain ⟨slotId, slot, hsl, hslot, huid, hstart, hend, hhid, hotp, hcode, hlook⟩ :=
      promoClaimNorm_claimed_spec db (upperStr (trimStr code)) uid now iso assigned txn
        (PromoClaimRes.claimed assigned txn)
        (promoClaimNorm db (upperStr (trimStr code)) uid now iso).2 heq rfl
    exact ⟨hlook, huid, hstart, hhid, hotp, hcode⟩

theorem lease_rewritten_on_success_witness :
    List.lookup "OORX" (promoClaim dbC5 "OORX" "bob" nowEx "iso1").2.transactions =
      some txnC5new ∧
    txnC5new.user_id = "bob" ∧ txnC5new.start_time = formatDateTime nowEx ∧
    txnC5new.hidden = false ∧ txnC5new.otp_delivered = false ∧
    txnC5new.code_delivered = false := by
  have h := lease_rewritten_on_success dbC5 "OORX" "bob" nowEx "iso1" false txnC5new (by decide)
  exact h

/-- C6: the lease duration is the category's numeric duration in hours, or
24 hours for a string containing "day" (case-insensitive), or the leading
integer of any other string, or 6 hours by default; and on every
successful claim the stored lease has start_time = now and end_time =
start + duration hours (so a 6-hour category claimed at 10:00:00 ends at
16:00:00 the same day). -/
theorem lease_duration_end_time :
    (∀ n : Int, durationHoursOf (some (DurVal.num n)) = n) ∧
    (∀ s : String, containsDayCI s = true → durationHoursOf (some (DurVal.str s)) = 24) ∧
    (∀ (s : String) (n : Int), containsDayCI s = false → parseIntJs s = some n →
      durationHoursOf (some (DurVal.str s)) = n) ∧
    (∀ s : String, containsDayCI s = false → parseIntJs s = none →
      durationHoursOf (some (DurVal.str s)) = 6) ∧
    durationHoursOf none = 6 ∧
    (∀ (db : Db) (code uid : String) (now : Int) (iso : String) (assigned : Bool) (txn : Txn),
      (promoClaim db code uid now iso).1 = PromoClaimRes.claimed assigned txn →
      txn.start_time = formatDateTime now ∧
      ∃ slotId slot, List.lookup slotId db.slots = some slot ∧ txn.slot_id = some slotId ∧
        txn.end_time = formatDateTime (now + durationHoursOf slot.duration_hours * 3600000)) := by
  refine ⟨fun n => rfl, ?_, ?_, ?_, rfl, ?_⟩
  · intro s hday
    simp [durationHoursOf, hday]
  · intro s n hday hparse
    simp [durationHoursOf, hday, hparse]
  · intro s hday hparse
    simp [durationHoursOf, hday, hparse]
  · intro db code uid now iso assigned txn h
    by_cases hg : (code = "" || uid = "") = true
    · rw [promoClaim] at h
      rw [if_pos hg] at h
      simp at h
    · have e : promoClaim db code uid now iso =
          promoClaimNorm db (upperStr (trimStr code)) uid now iso := by
        rw [promoClaim, if_neg hg]
      rw [e] at h
      have heq : promoClaimNorm db (upperStr (trimStr code)) uid now iso =
          (PromoClaimRes.claimed assigned txn,
            (promoClaimNorm db (upperStr (trimStr code)) uid now iso).2) := by
        rw [← h]
      obtain ⟨slotId, slot, hsl, hslot, huid, hstart, hend, hhid, hotp, hcode, hlook⟩ :=
        promoClaimNorm_claimed_spec db (upperStr (trimStr code)) uid now iso assigned txn
          (PromoClaimRes.claimed assigned txn)
          (promoClaimNorm db (upperStr (trimStr code)) uid now iso).2 heq rfl
      exact ⟨hstart, slotId, slot, hsl, hslot, hend⟩

theorem lease_duration_end_time_witness :
    durationHoursOf slotEx.duration_hours = 6 ∧
    txnC5new.start_time = formatDateTime nowEx ∧
    (∃ slotId slot, List.lookup slotId dbC5.slots = some slot ∧
      txnC5new.slot_id = some slotId ∧
      txnC5new.end_time =
        formatDateTime (nowEx + durationHoursOf slot.duration_hours * 3600000)) ∧
    formatDateTime (dayMs 2025 1 15 + 10 * 3600000) = "2025-01-15 10:00:00" ∧
    formatDateTime (dayMs 2025 1 15 + 10 * 3600000 + 6 * 3600000) = "2025-01-15 16:00:00" := by
  have h := lease_duration_end_time.2.2.2.2.2 dbC5 "OORX" "bob" nowEx "iso1" false txnC5new
    (by decide)
  exact ⟨by decide, h.1, h.2, by decide, by decide⟩

theorem presentStr_some_getD (s : String) : (presentStr (some s)).getD "" = s := by
  by_cases h : s = "" <;> simp [presentStr, h]

theorem refresh_post (db : Db) (code : String) (now : Int) (r : RefreshRes) (db1 : Db)
    (heq : accountRefresh db code now = (r, db1)) (e p : String)
    (hr : r = RefreshRes.refreshed e p ∨ r = RefreshRes.unchanged e p) :
    (r = RefreshRes.unchanged e p → db1 = db) ∧
    (r = RefreshRes.refreshed e p →
      ∃ trx, List.lookup (upperStr (trimStr code)) db.transactions = some trx ∧
        List.lookup (upperStr (trimStr code)) db1.transactions =
          some { trx with last_email := some e, last_password := some p }) ∧
    accountRefresh db1 code now = (RefreshRes.unchanged e p, db1) := by
  by_cases hc : code = ""
  · rw [accountRefresh] at heq
    rw [if_pos hc] at heq
    injection heq with h1 h2
    rcases hr with hr | hr <;> (rw [← h1] at hr; simp at hr)
  · have e0 : ∀ d : Db, accountRefresh d code now = accountRefreshNorm d
        (upperStr (trimStr code)) now := by
      intro d
      rw [accountRefresh, if_neg hc]
    rw [e0] at heq
    cases hlk : List.lookup (upperStr (trimStr code)) db.transactions with
    | none =>
      simp only [accountRefreshNorm, hlk] at heq
      injection heq with h1 h2
      rcases hr with hr | hr <;> (rw [← h1] at hr; simp at hr)
    | some trx =>
      by_cases hexp : endTimePassed trx.end_time now = true
      · simp only [accountRefreshNorm, hlk, if_pos hexp] at heq
        injection heq with h1 h2
        rcases hr with hr | hr <;> (rw [← h1] at hr; simp at hr)
      · simp only [accountRefreshNorm, hlk, if_neg hexp] at heq
        cases hat : presentStr trx.assign_to with
        | none =>
          simp only [refreshGo, hat] at heq
          injection heq with h1 h2
          rcases hr with hr | hr <;> (rw [← h1] at hr; simp at hr)
        | some credKey =>
          cases hck : List.lookup credKey db.root with
          | none =>
            simp only [refreshGo, hat, hck] at heq
            injection heq with h1 h2
            rcases hr with hr | hr <;> (rw [← h1] at hr; simp at hr)
          | some cred =>
            by_cases hcmp : (presentStr cred.email).getD "" =
                  (presentStr trx.last_email).getD "" ∧
                (presentStr cred.password).getD "" = (presentStr trx.last_password).getD ""
            · simp only [refreshGo, hat, hck, if_pos hcmp] at heq
              injection heq with h1 h2
              subst h2
              rcases hr with hr | hr
              · rw [← h1] at hr
                simp at hr
              · rw [← h1] at hr
                injection hr with he hp
                subst he
                subst hp
                refine ⟨fun _ => rfl, fun hrf => ?_, ?_⟩
                · rw [← h1] at hrf
                  simp at hrf
                · rw [e0]
                  simp only [accountRefreshNorm, hlk, if_neg hexp]
                  simp only [refreshGo, hat, hck, if_pos hcmp]
            · simp only [refreshGo, hat, hck, if_neg hcmp] at heq
              injection heq with h1 h2
              subst h2
              rcases hr with hr | hr
              · rw [← h1] at hr
                injection hr with he hp
                subst he
                subst hp
                refine ⟨fun hun => ?_, fun _ => ?_, ?_⟩
                · rw [← h1] at hun
                  simp at hun
                · refine ⟨trx, rfl, ?_⟩
                  rw [show (Db.transactions _) = updateAssoc db.transactions
                    (upperStr (trimStr code)) _ from rfl]
                  rw [lookup_updateAssoc_self, hlk]
                  rfl
                · rw [e0]
                  have hlk2 : List.lookup (upperStr (trimStr code))
                      (updateAssoc db.transactions (upperStr (trimStr code)) (fun t =>
                        { t with
                          last_email := some ((presentStr cred.email).getD "")
                          last_password := some ((presentStr cred.password).getD "") })) =
                      some { trx with
                        last_email := some ((presentStr cred.email).getD "")
                        last_password := some ((presentStr cred.password).getD "") } := by
                    rw [lookup_updateAssoc_self, hlk]
                    rfl
                  simp only [accountRefreshNorm, hlk2, if_neg hexp]
                  simp only [refreshGo, hat, hck]
                  rw [if_pos ⟨by rw [presentStr_some_getD], by rw [presentStr_some_getD]⟩]
              · rw [← h1] at hr
                simp at hr

/-- C9: when the bound credential's current payload equals the lease's
stored snapshot, /account/refresh returns the explicit unchanged outcome
and performs no write (the store is untouched); only a differing payload
overwrites the snapshot and returns the new payload; consequently a second
consecutive refresh with no underlying credential change returns unchanged
and leaves the store exactly as it was. -/
theorem refresh_unchanged_frame :
    (∀ (db : Db) (code : String) (now : Int) (r : RefreshRes) (db1 : Db) (e p : String),
      accountRefresh db code now = (r, db1) → r = RefreshRes.unchanged e p → db1 = db) ∧
    (∀ (db : Db) (code : String) (now : Int) (r : RefreshRes) (db1 : Db) (e p : String),
      accountRefresh db code now = (r, db1) → r = RefreshRes.refreshed e p →
      ∃ trx, List.lookup (upperStr (trimStr code)) db.transactions = some trx ∧
        List.lookup (upperStr (trimStr code)) db1.transactions =
          some { trx with last_email := some e, last_password := some p }) ∧
    (∀ (db : Db) (code : String) (now : Int) (r : RefreshRes) (db1 : Db) (e p : String),
      accountRefresh db code now = (r, db1) →
      (r = RefreshRes.refreshed e p ∨ r = RefreshRes.unchanged e p) →
      accountRefresh db1 code now = (RefreshRes.unchanged e p, db1)) :=
  ⟨fun db code now r db1 e p heq hu =>
    (refresh_post db code now r db1 heq e p (Or.inr hu)).1 hu,
   fun db code now r db1 e p heq hrf =>
    (refresh_post db code now r db1 heq e p (Or.inl hrf)).2.1 hrf,
   fun db code now r db1 e p heq hr =>
    (refresh_post db code now r db1 heq e p hr).2.2⟩

/-- Credential for the C9 witness. -/
def credC9 : Cred := ⟨.str "slot1", .absent, 0, 0, 0, none, some "e@x", some "pw", none, none⟩

/-- Lease whose snapshot already equals the credential payload, for the
C9 witness. -/
def txnC9 : Txn :=
  ⟨some "Netflix", some "slot1", "Premium", "name", "Premium Account",
   "2025-01-15 10:00:00", "2025-01-15 16:00:00", "iso", some "cred9", "u1", some "e@x",
   some "pw", false, none, none, false, false⟩

/-- Store for the C9 witness. -/
def dbC9 : Db :=
  ⟨[], [("OORC9", txnC9)], [("slot1", slotEx)], ⟨none, false⟩, [("cred9", credC9)], [], []⟩

theorem refresh_unchanged_frame_witness :
    accountRefresh dbC9 "OORC9" nowEx = (RefreshRes.unchanged "e@x" "pw", dbC9) :=
  refresh_unchanged_frame.2.2 dbC9 "OORC9" nowEx (RefreshRes.unchanged "e@x" "pw") dbC9
    "e@x" "pw" (by decide) (Or.inr rfl)

/-- The poll at index j reported the "not_found" status. -/
def notFoundAt (env : Nat → PollOutcome) (j : Nat) : Prop :=
  ∃ st cf, env j = PollOutcome.payload st cf ∧ lowerStr st = "not_found"

/-- The poll at index j reported "success" with a non-empty code c. -/
def deliversAt (env : Nat → PollOutcome) (j : Nat) (c : String) : Prop :=
  ∃ st cf, env j = PollOutcome.payload st cf ∧ lowerStr st = "success" ∧
    trimStr cf ≠ "" ∧ c = trimStr cf

theorem pollLoop_spec (env : Nat → PollOutcome) :
    ∀ (fuel attempts : Nat), 3 ≤ attempts + fuel →
      (0 < fuel → 1 ≤ (pollLoop env attempts fuel).polls) ∧
      (pollLoop env attempts fuel).polls ≤ fuel ∧
      (pollLoop env attempts fuel).sleeps =
        (List.range ((pollLoop env attempts fuel).polls - 1)).map
          (fun j => 1000 * (attempts + 1 + j)) ∧
      (∀ j, attempts + 1 ≤ j → j < attempts + (pollLoop env attempts fuel).polls →
        notFoundAt env j) ∧
      (∀ c, (pollLoop env attempts fuel).code = some c →
        deliversAt env (attempts + (pollLoop env attempts fuel).polls) c) := by
  intro fuel
  induction fuel with
  | zero =>
    intro attempts hle
    refine ⟨by omega, by simp [pollLoop], by simp [pollLoop], ?_, ?_⟩
    · intro j h1 h2
      simp [pollLoop] at h2
      omega
    · intro c hc
      simp [pollLoop] at hc
  | succ fuel ih =>
    intro attempts hle
    cases henv : env (attempts + 1) with
    | httpError =>
      refine ⟨fun _ => by simp [pollLoop, henv], by simp [pollLoop, henv], ?_, ?_, ?_⟩
      · simp [pollLoop, henv]
      · intro j h1 h2
        simp only [pollLoop, henv] at h2
        omega
      · intro c hc
        simp [pollLoop, henv] at hc
    | payload st cf =>
      by_cases hs : lowerStr st = "success"
      · refine ⟨fun _ => by simp [pollLoop, henv, hs], by simp [pollLoop, henv, hs], ?_, ?_, ?_⟩
        · simp [pollLoop, henv, hs]
        · intro j h1 h2
          simp only [pollLoop, henv] at h2
          rw [if_pos hs] at h2
          simp at h2
          omega
        · intro c hc
          simp only [pollLoop, henv] at hc ⊢
          rw [if_pos hs] at hc ⊢
          by_cases hcf : trimStr cf = ""
          · rw [if_pos hcf] at hc
            simp at hc
          · rw [if_neg hcf] at hc
            simp at hc
            exact ⟨st, cf, by simpa using henv, hs, hcf, hc.symm⟩
      · by_cases hnf : lowerStr st = "not_found"
        · by_cases ha : attempts + 1 < 3
          · have hfuel : 0 < fuel := by omega
            obtain ⟨ih1, ih2, ih3, ih4, ih5⟩ := ih (attempts + 1) (by omega)
            have hp1 : 1 ≤ (pollLoop env (attempts + 1) fuel).polls := ih1 hfuel
            have hpolls : (pollLoop env attempts (fuel + 1)).polls =
                (pollLoop env (attempts + 1) fuel).polls + 1 := by
              simp [pollLoop, henv, hs, hnf, ha]
            have hsleeps : (pollLoop env attempts (fuel + 1)).sleeps =
                1000 * (attempts + 1) :: (pollLoop env (attempts + 1) fuel).sleeps := by
              simp [pollLoop, henv, hs, hnf, ha]
            have hcode : (pollLoop env attempts (fuel + 1)).code =
                (pollLoop env (attempts + 1) fuel).code := by
              simp [pollLoop, henv, hs, hnf, ha]
            refine ⟨fun _ => by rw [hpolls]; omega, ?_, ?_, ?_, ?_⟩
            · rw [hpolls]
              omega
            · rw [hsleeps, hpolls, ih3]
              have hsplit : (pollLoop env (attempts + 1) fuel).polls + 1 - 1 =
                  ((pollLoop env (attempts + 1) fuel).polls - 1) + 1 := by omega
              rw [hsplit, List.range_succ_eq_map, List.map_cons, List.map_map]
              refine congrArg₂ _ (by simp) ?_
              refine List.map_congr_left ?_
              intro j hj
              simp [Function.comp]
              omega
            · intro j h1 h2
              rw [hpolls] at h2
              by_cases hj : j = attempts + 1
              · exact ⟨st, cf, hj ▸ henv, hnf⟩
              · exact ih4 j (by omega) (by omega)
            · intro c hc
              rw [hcode] at hc
              rw [hpolls]
              have h5 := ih5 c hc
              have harr : attempts + ((pollLoop env (attempts + 1) fuel).polls + 1) =
                  attempts + 1 + (pollLoop env (attempts + 1) fuel).polls := by omega
              rw [harr]
              exact h5
          · refine ⟨fun _ => by simp [pollLoop, henv, hs, hnf, ha], ?_, ?_, ?_, ?_⟩
            · simp [pollLoop, henv, hs, hnf, ha]
            · simp [pollLoop, henv, hs, hnf, ha]
            · intro j h1 h2
              simp only [pollLoop, henv] at h2
              rw [if_neg hs, if_pos hnf, if_neg ha] at h2
              simp at h2
              omega
            · intro c hc
              simp only [pollLoop, henv] at hc
              rw [if_neg hs, if_pos hnf, if_neg ha] at hc
              simp at hc
        · refine ⟨fun _ => by simp [pollLoop, henv, hs, hnf], ?_, ?_, ?_, ?_⟩
          · simp [pollLoop, henv, hs, hnf]
          · simp [pollLoop, henv, hs, hnf]
          · intro j h1 h2
            simp only [pollLoop, henv] at h2
            rw [if_neg hs, if_neg hnf] at h2
            simp at h2
            omega
          · intro c hc
            simp only [pollLoop, henv] at hc
            rw [if_neg hs, if_neg hnf] at hc
            simp at hc

/-- C8: the external-code fetch fails fast with the busy signal exactly
when the per-platform window_until is still in the future (leaving the
store untouched); otherwise it writes window_until = now + 90, performs
between 1 and 3 polls, sleeping attempt x 1000 ms between consecutive
polls, polls again only while the endpoint reports "not_found", delivers
a code only from a "success" poll with a non-empty code, and
unconditionally clears the window to 0 before returning. -/
theorem get_code_window_protocol :
    (∀ (windows : List (String × Int)) (env : Nat → PollOutcome) (k : String) (nowTs : Int),
      ((getCodeCore windows env k nowTs).busy = true ↔
        nowTs < (List.lookup k windows).getD 0) ∧
      ((getCodeCore windows env k nowTs).busy = true →
        (getCodeCore windows env k nowTs).windows = windows ∧
        (getCodeCore windows env k nowTs).windowWrites = [] ∧
        (getCodeCore windows env k nowTs).polls = 0) ∧
      ((getCodeCore windows env k nowTs).busy = false →
        (getCodeCore windows env k nowTs).windowWrites = [nowTs + 90, 0] ∧
        List.lookup k (getCodeCore windows env k nowTs).windows = some 0 ∧
        1 ≤ (getCodeCore windows env k nowTs).polls ∧
        (getCodeCore windows env k nowTs).polls ≤ 3 ∧
        (getCodeCore windows env k nowTs).sleeps =
          (List.range ((getCodeCore windows env k nowTs).polls - 1)).map
            (fun j => 1000 * (j + 1)) ∧
        (∀ j, 1 ≤ j → j < (getCodeCore windows env k nowTs).polls → notFoundAt env j) ∧
        (∀ c, (getCodeCore windows env k nowTs).delivered = some c →
          deliversAt env ((getCodeCore windows env k nowTs).polls) c))) ∧
    (∀ (db : Db) (env : Nat → PollOutcome) (code : String) (now : Int),
      (accountGetCode db env code now).1 = CodeRes.busy →
      (accountGetCode db env code now).2.1 = db) := by
  constructor
  · intro windows env k nowTs
    by_cases hb : nowTs < (List.lookup k windows).getD 0
    · refine ⟨by simp [getCodeCore, hb], ?_, ?_⟩
      · intro _
        refine ⟨?_, ?_, ?_⟩ <;> simp [getCodeCore, hb]
      · intro hfalse
        rw [show (getCodeCore windows env k nowTs).busy = true by simp [getCodeCore, hb]]
          at hfalse
        simp at hfalse
    · obtain ⟨p1, p2, p3, p4, p5⟩ := pollLoop_spec env 3 0 (by omega)
      have hbusy : (getCodeCore windows env k nowTs).busy = false := by
        simp [getCodeCore, hb]
      have hww : (getCodeCore windows env k nowTs).windowWrites = [nowTs + 90, 0] := by
        simp [getCodeCore, hb]
      have hwin : (getCodeCore windows env k nowTs).windows =
          setAssoc (setAssoc windows k (nowTs + 90)) k 0 := by
        simp [getCodeCore, hb]
      have hpolls : (getCodeCore windows env k nowTs).polls = (pollLoop env 0 3).polls := by
        simp [getCodeCore, hb]
      have hsleeps : (getCodeCore windows env k nowTs).sleeps = (pollLoop env 0 3).sleeps := by
        simp [getCodeCore, hb]
      have hdel : (getCodeCore windows env k nowTs).delivered = (pollLoop env 0 3).code := by
        simp [getCodeCore, hb]
      refine ⟨iff_of_false (by rw [hbusy]; simp) hb, ?_, ?_⟩
      · intro hfalse
        rw [hbusy] at hfalse
        simp at hfalse
      · intro _
        refine ⟨hww, ?_, ?_, ?_, ?_, ?_, ?_⟩
        · rw [hwin]
          exact lookup_setAssoc_self _ _ _
        · rw [hpolls]
          exact p1 (by omega)
        · rw [hpolls]
          exact p2
        · rw [hsleeps, hpolls, p3]
          refine List.map_congr_left ?_
          intro j hj
          omega
        · intro j hj1 hj2
          rw [hpolls] at hj2
          exact p4 j (by omega) (by omega)
        · intro c hc
          rw [hdel] at hc
          rw [hpolls]
          have h5 := p5 c hc
          simpa using h5
  · intro db env code now h
    by_cases hc : code = ""
    · rw [accountGetCode, if_pos hc] at h
      simp at h
    · rw [accountGetCode, if_neg hc] at h ⊢
      cases hlk : List.lookup (upperStr (trimStr code)) db.transactions with
      | none => simp [accountGetCodeNorm, hlk] at h
      | some trx =>
        by_cases hexp : endTimePassed trx.end_time now = true
        · simp [accountGetCodeNorm, hlk, hexp] at h
        · cases hat : presentStr trx.assign_to with
          | none => simp [accountGetCodeNorm, hlk, hexp, hat] at h
          | some credKey =>
            cases hck : List.lookup credKey db.root with
            | none => simp [accountGetCodeNorm, hlk, hexp, hat, hck] at h
            | some cred =>
              by_cases hem : trimStr ((presentStr cred.email).getD "") = ""
              · simp [accountGetCodeNorm, hlk, hexp, hat, hck, hem] at h
              · by_cases hp0 : trimStr ((presentStr trx.platform).getD "") ≠ ""
                · by_cases hbz : (now / 1000 : Int) <
                      (List.lookup (lowerStr (trimStr ((presentStr trx.platform).getD "")))
                        db.code_windows).getD 0
                  · simp [accountGetCodeNorm, hlk, hexp, hat, hck, hem, hp0, getCodeCore, hbz]
                  · cases hpc : (pollLoop env 0 3).code with
                    | none =>
                      simp [accountGetCodeNorm, hlk, hexp, hat, hck, hem, hp0, getCodeCore,
                        hbz, hpc] at h
                    | some c =>
                      simp [accountGetCodeNorm, hlk, hexp, hat, hck, hem, hp0, getCodeCore,
                        hbz, hpc] at h
                · cases hbp : cred.belongs_to_platform with
                  | absent =>
                    simp [accountGetCodeNorm, hlk, hexp, hat, hck, hem, hp0, hbp] at h
                  | arr l =>
                    simp [accountGetCodeNorm, hlk, hexp, hat, hck, hem, hp0, hbp] at h
                  | str s =>
                    by_cases hsz : s = ""
                    · simp [accountGetCodeNorm, hlk, hexp, hat, hck, hem, hp0, hbp, hsz] at h
                    · by_cases hbz : (now / 1000 : Int) <
                          (List.lookup (lowerStr s) db.code_windows).getD 0
                      · simp [accountGetCodeNorm, hlk, hexp, hat, hck, hem, hp0, hbp, hsz,
                          getCodeCore, hbz]
                      · cases hpc : (pollLoop env 0 3).code with
                        | none =>
                          simp [accountGetCodeNorm, hlk, hexp, hat, hck, hem, hp0, hbp, hsz,
                            getCodeCore, hbz, hpc] at h
                        | some c =>
                          simp [accountGetCodeNorm, hlk, hexp, hat, hck, hem, hp0, hbp, hsz,
                            getCodeCore, hbz, hpc] at h

/-- Environment whose endpoint always reports not_found, for the C8
witness. -/
def envW : Nat → PollOutcome := fun _ => PollOutcome.payload "not_found" ""

/-- Store with a held code window for the C8 witness. -/
def dbC8 : Db :=
  ⟨[], [("OORC8", txnC9)], [("slot1", slotEx)], ⟨none, false⟩, [("cred9", credC9)], [],
   [("netflix", 999999999999)]⟩

theorem get_code_window_protocol_witness :
    (getCodeCore [("netflix", (100 : Int))] envW "netflix" 50).busy = true ∧
    (accountGetCode dbC8 envW "OORC8" nowEx).2.1 = dbC8 := by
  refine ⟨(get_code_window_protocol.1 [("netflix", (100 : Int))] envW "netflix" 50).1.mpr
    (by decide), get_code_window_protocol.2 dbC8 envW "OORC8" nowEx (by decide)⟩

theorem dynamicTrunc_lt (h : List Nat) : dynamicTrunc h < 2 ^ 31 := by
  simp only [dynamicTrunc]
  set off := h.getD (h.length - 1) 0 &&& 15 with hoff
  have b1 : h.getD off 0 &&& 127 ≤ 127 := Nat.and_le_right
  have b2 : h.getD (off + 1) 0 &&& 255 ≤ 255 := Nat.and_le_right
  have b3 : h.getD (off + 2) 0 &&& 255 ≤ 255 := Nat.and_le_right
  have b4 : h.getD (off + 3) 0 &&& 255 ≤ 255 := Nat.and_le_right
  have s1 : (h.getD off 0 &&& 127) <<< 24 < 2 ^ 31 := by
    rw [Nat.shiftLeft_eq]
    calc (h.getD off 0 &&& 127) * 2 ^ 24 ≤ 127 * 2 ^ 24 := Nat.mul_le_mul_right _ b1
      _ < 2 ^ 31 := by norm_num
  have s2 : (h.getD (off + 1) 0 &&& 255) <<< 16 < 2 ^ 31 := by
    rw [Nat.shiftLeft_eq]
    calc (h.getD (off + 1) 0 &&& 255) * 2 ^ 16 ≤ 255 * 2 ^ 16 := Nat.mul_le_mul_right _ b2
      _ < 2 ^ 31 := by norm_num
  have s3 : (h.getD (off + 2) 0 &&& 255) <<< 8 < 2 ^ 31 := by
    rw [Nat.shiftLeft_eq]
    calc (h.getD (off + 2) 0 &&& 255) * 2 ^ 8 ≤ 255 * 2 ^ 8 := Nat.mul_le_mul_right _ b3
      _ < 2 ^ 31 := by norm_num
  have s4 : (h.getD (off + 3) 0 &&& 255) < 2 ^ 31 := lt_of_le_of_lt b4 (by norm_num)
  exact Nat.or_lt_two_pow (Nat.or_lt_two_pow (Nat.or_lt_two_pow s1 s2) s3) s4

/-- C7: generateTotp is the dynamic truncation of the HMAC-SHA1 of the
8-byte big-endian counter floor(nowMs / 1000 / 30) under the decoded
base-32 secret, reduced modulo 10^digits and zero-padded to digits width;
the truncation value fits in 31 bits; the remaining validity is
windowSeconds minus (unixSeconds mod windowSeconds); and two calls whose
times fall in the same 30-second window return identical codes. -/
theorem generateTotp_spec :
    (∀ (secret : String) (digits t : Nat),
      (generateTotp secret 30 digits t).1 =
        padLeftZeros (toString (dynamicTrunc
          (hmacSha1 (base32ToBuffer secret) (be8 (t / 1000 / 30))) % 10 ^ digits)) digits ∧
      (generateTotp secret 30 digits t).2 = 30 - t / 1000 % 30) ∧
    (∀ h : List Nat, dynamicTrunc h < 2 ^ 31) ∧
    (∀ (secret : String) (digits t1 t2 : Nat), t1 / 1000 / 30 = t2 / 1000 / 30 →
      (generateTotp secret 30 digits t1).1 = (generateTotp secret 30 digits t2).1) := by
  refine ⟨fun secret digits t => ⟨rfl, rfl⟩, dynamicTrunc_lt, ?_⟩
  intro secret digits t1 t2 hw
  simp only [generateTotp, hw]

set_option maxRecDepth 100000 in
theorem generateTotp_spec_witness :
    (generateTotp "GEZDGNBVGY3TQOJQGEZDGNBVGY3TQOJQ" 30 6 59000).1 =
      (generateTotp "GEZDGNBVGY3TQOJQGEZDGNBVGY3TQOJQ" 30 6 45000).1 ∧
    (generateTotp "GEZDGNBVGY3TQOJQGEZDGNBVGY3TQOJQ" 30 6 59000).1 = "287082" ∧
    (generateTotp "GEZDGNBVGY3TQOJQGEZDGNBVGY3TQOJQ" 30 8 59000).1 = "94287082" ∧
    (generateTotp "GEZDGNBVGY3TQOJQGEZDGNBVGY3TQOJQ" 30 6 59000).2 = 1 := by
  refine ⟨generateTotp_spec.2.2 "GEZDGNBVGY3TQOJQGEZDGNBVGY3TQOJQ" 6 59000 45000 (by decide),
    by decide, by decide, by decide⟩

/-- C10: every user-facing route that takes a redemption code trims
surrounding whitespace and upper-cases it before any store lookup, so two
non-empty presented codes that agree after this normalisation produce
identical behaviour on every store (the empty string is rejected before
normalisation). -/
theorem code_normalization (c1 c2 : String) (h : upperStr (trimStr c1) = upperStr (trimStr c2))
    (h1 : c1 ≠ "") (h2 : c2 ≠ "") :
    (∀ (db : Db) (uid : String) (now : Int) (iso : String),
      promoClaim db c1 uid now iso = promoClaim db c2 uid now iso) ∧
    (∀ (db : Db) (now : Int), userLogin db c1 now = userLogin db c2 now) ∧
    (∀ (db : Db) (now : Int), accountRefresh db c1 now = accountRefresh db c2 now) ∧
    (∀ (db : Db) (now : Int), accountGetOtp db c1 now = accountGetOtp db c2 now) ∧
    (∀ (db : Db) (env : Nat → PollOutcome) (now : Int),
      accountGetCode db env c1 now = accountGetCode db env c2 now) := by
  refine ⟨?_, ?_, ?_, ?_, ?_⟩
  · intro db uid now iso
    by_cases hu : uid = ""
    · rw [promoClaim, promoClaim, if_pos (by simp [hu]), if_pos (by simp [hu])]
    · rw [promoClaim, promoClaim, if_neg (by simp [h1, hu]), if_neg (by simp [h2, hu]), h]
  · intro db now
    rw [userLogin, userLogin, if_neg h1, if_neg h2, h]
  · intro db now
    rw [accountRefresh, accountRefresh, if_neg h1, if_neg h2, h]
  · intro db now
    rw [accountGetOtp, accountGetOtp, if_neg h1, if_neg h2, h]
  · intro db env now
    rw [accountGetCode, accountGetCode, if_neg h1, if_neg h2, h]

theorem code_normalization_witness :
    userLogin dbC9 " oorc9 " nowEx = userLogin dbC9 "OORC9" nowEx :=
  (code_normalization " oorc9 " "OORC9" (by decide) (by decide) (by decide)).2.1 dbC9 nowEx
